import Mathlib

/-!
api-proxy: request validation, rate limiting and the key-lookup handler.

A shallow embedding of `lib/security.js`, `api/keys/[service].js` and
`api/translate.js`.

Modelling conventions.
* A JavaScript string is a list of characters (`JsString`).  Every separator
  and pattern the source searches for is ASCII, so searching by code point
  and searching by UTF-16 code unit agree.
* A header that is absent (`undefined`) is `none`; a header that is present is
  `some s`.  JavaScript truthiness of a header is therefore "present and not
  the empty string" (`truthy`).
* `Date.now()` is a natural number of milliseconds.  For every value a `Date`
  can hold (below 8.64e15 < 2^53) `Math.floor(now / 60000)` is exactly
  the natural-number quotient, and all later comparisons are between
  integers that a double holds exactly.
* `Math.random() < 0.1` is not computed: its outcome is the Boolean argument
  `draw` of `checkRateLimit`.
* The module-level `rateLimits` map is passed in and returned explicitly.
* The upstream API that the translate handler calls with `fetch` is a
  function argument: it rejects, or answers with a status and a body.
* Console output is not modelled.
-/

namespace ApiProxy

/-! ## Strings -/

/-- A JavaScript string. -/
abbrev JsString := List Char

/-- `s.includes(pat)` of JavaScript: `pat` occurs in `s` as a contiguous block. -/
def includes : JsString → JsString → Bool
  | [], pat => pat.isPrefixOf []
  | c :: cs, pat => pat.isPrefixOf (c :: cs) || includes cs pat

/-- Put a character in front of the first piece of a list of pieces. -/
def consHead (c : Char) : List JsString → List JsString
  | [] => [[c]]
  | h :: t => (c :: h) :: t

/-- Worker of `split`: scans left to right; the counter is the number of
characters of an already matched separator that are still to be skipped. -/
def splitGo (sep : JsString) : Nat → JsString → List JsString
  | _, [] => [[]]
  | skip + 1, _ :: cs => splitGo sep skip cs
  | 0, c :: cs =>
    if sep.isPrefixOf (c :: cs) then [] :: splitGo sep (sep.length - 1) cs
    else consHead c (splitGo sep 0 cs)

/-- `s.split(sep)` of JavaScript for a non-empty separator: the pieces between
the non-overlapping occurrences of `sep`, found left to right. -/
def split (s sep : JsString) : List JsString := splitGo sep 0 s

/-- `parts.join(sep)` of JavaScript. -/
def join (parts : List JsString) (sep : JsString) : JsString :=
  List.intercalate sep parts

/-- `parts.slice(start)` of JavaScript: a negative `start` counts from the end. -/
def slice (parts : List JsString) (start : Int) : List JsString :=
  if start < 0 then parts.drop (parts.length - start.natAbs)
  else parts.drop start.toNat

/-- Truthiness of a value that is a string or `undefined`. -/
def truthy : Option JsString → Bool
  | none => false
  | some s => !s.isEmpty

/-! ## `lib/security.js` -/

/-- Constant `RATE_LIMIT_WINDOW` of the source: one minute. -/
def RATE_LIMIT_WINDOW : Nat := 60 * 1000

/-- Constant `RATE_LIMIT_MAX` of the source: 20 requests per minute per IP. -/
def RATE_LIMIT_MAX : Nat := 20

/-- Function `extractRootDomain` of the source. -/
def extractRootDomain (urlOrHost : JsString) : JsString :=
  let hostname := urlOrHost
  -- Remove protocol if present
  let hostname :=
    if includes hostname "://".toList then (split hostname "://".toList).getD 1 []
    else hostname
  -- Remove path if present
  let hostname := (split hostname "/".toList).headD []
  -- Split by dots and take last 2 parts (domain.tld)
  let parts := split hostname ".".toList
  if parts.length ≥ 2 then join (slice parts (-2)) ".".toList
  else hostname

/-- The parts of an incoming request that the source reads. -/
structure Request where
  /-- Field `req.method`. -/
  method : JsString
  /-- Header `req.headers.origin`. -/
  origin : Option JsString
  /-- Header `req.headers.referer`. -/
  referer : Option JsString
  /-- Header `req.headers.host`. -/
  host : Option JsString
  /-- Header `req.headers['user-agent']`. -/
  userAgent : Option JsString
  /-- Header `req.headers['x-forwarded-for']`. -/
  xForwardedFor : Option JsString
  /-- Header `req.headers['x-real-ip']`. -/
  xRealIp : Option JsString
  /-- Value `req.connection?.remoteAddress`. -/
  remoteAddress : Option JsString
  /-- Object `req.query` (`none` when the property is not set) with its
  `service` member (`none` when that member is `undefined`). -/
  query : Option (Option JsString)

/-- Function `validateOrigin` of the source. -/
def validateOrigin (req : Request) : Bool :=
  let origin := req.origin
  let referer := req.referer
  let proxyHost := req.host
  if !truthy proxyHost then false
  else
    let proxyDomain := extractRootDomain (proxyHost.getD [])
    -- Check origin first
    if truthy origin && extractRootDomain (origin.getD []) == proxyDomain then true
    -- Check referer as fallback
    else if truthy referer && extractRootDomain (referer.getD []) == proxyDomain then true
    else false

/-- Function `validateUserAgent` of the source. -/
def validateUserAgent (req : Request) : Bool :=
  let userAgent := req.userAgent
  if !truthy userAgent || !includes (userAgent.getD []) "Mozilla".toList then false
  else true

/-! ### The rate-limit table -/

/-- The `Map` named `rateLimits` of the source: keys with their counts, in
insertion order. -/
abbrev RateLimits := List (JsString × Nat)

/-- `map.get(key)` of JavaScript (`none` is `undefined`). -/
def mapGet (m : RateLimits) (key : JsString) : Option Nat :=
  match m with
  | [] => none
  | (k, v) :: rest => if k = key then some v else mapGet rest key

/-- `map.set(key, value)` of JavaScript: an existing key keeps its place, a
new key goes to the end. -/
def mapSet (m : RateLimits) (key : JsString) (value : Nat) : RateLimits :=
  match m with
  | [] => [(key, value)]
  | (k, v) :: rest => if k = key then (k, value) :: rest else (k, v) :: mapSet rest key value

/-- `map.delete(key)` of JavaScript. -/
def mapDelete (m : RateLimits) (key : JsString) : RateLimits :=
  match m with
  | [] => []
  | (k, v) :: rest => if k = key then rest else (k, v) :: mapDelete rest key

/-- Characters that `parseInt` skips at the start of its input: the
`WhiteSpace` and `LineTerminator` code points of ECMAScript. -/
def isStrWhiteSpaceChar (c : Char) : Bool :=
  let n := c.toNat
  n = 0x9 || n = 0xA || n = 0xB || n = 0xC || n = 0xD || n = 0x20 || n = 0xA0 ||
  n = 0x1680 || (0x2000 ≤ n && n ≤ 0x200A) || n = 0x2028 || n = 0x2029 ||
  n = 0x202F || n = 0x205F || n = 0x3000 || n = 0xFEFF

/-- Value of a character read as a digit in the given radix, if it is one. -/
def digitValue (radix : Nat) (c : Char) : Option Nat :=
  let n := c.toNat
  let v :=
    if 48 ≤ n && n ≤ 57 then some (n - 48)
    else if 97 ≤ n && n ≤ 122 then some (n - 97 + 10)
    else if 65 ≤ n && n ≤ 90 then some (n - 65 + 10)
    else none
  match v with
  | some d => if d < radix then some d else none
  | none => none

/-- `parseInt(string)` of JavaScript with no radix argument; `none` is `NaN`
and the argument `none` is `undefined`.  The steps are those of ECMAScript:
skip leading white space, read a sign, switch to radix 16 after "0x" or "0X",
read the longest run of digits.  The result is kept as an exact integer: the
source only compares it with a window index, which a double holds exactly. -/
def parseInt (string : Option JsString) : Option Int :=
  let inputString := match string with
    | none => "undefined".toList
    | some s => s
  let S := inputString.dropWhile isStrWhiteSpaceChar
  let sign : Int := if S.head? = some '-' then -1 else 1
  let S := if S.head? = some '+' || S.head? = some '-' then S.tail else S
  let hex : Bool := S.take 2 = "0x".toList || S.take 2 = "0X".toList
  let R : Nat := if hex then 16 else 10
  let S := if hex then S.drop 2 else S
  let Z := S.takeWhile (fun c => (digitValue R c).isSome)
  if Z.isEmpty then none
  else some (sign * (Z.foldl (fun acc c => acc * R + (digitValue R c).getD 0) 0 : Nat))

/-- The text of a non-negative integer in a template literal. -/
def numberToString (n : Nat) : JsString := Nat.toDigits 10 n

/-- Function `cleanupRateLimits` of the source: walks over the entries and
deletes those whose key parses to a window below the cutoff. -/
def cleanupRateLimits (rateLimits : RateLimits) (currentWindow : Nat) : RateLimits :=
  let cutoff : Int := (currentWindow : Int) - 2 -- Keep last 2 windows
  rateLimits.foldl
    (fun m entry =>
      let key := entry.1
      let keyWindow := parseInt ((split key "-".toList)[1]?)
      match keyWindow with
      | some w => if w < cutoff then mapDelete m key else m
      | none => m)
    rateLimits

/-- JavaScript `a || b` on values that are a string or `undefined`. -/
def jsOr (a b : Option JsString) : Option JsString :=
  if truthy a then a else b

/-- The local `clientIP` of `checkRateLimit`: client IP from headers or
connection. -/
def clientIP (req : Request) : JsString :=
  (jsOr (req.xForwardedFor.map (fun v => (split v ",".toList).headD []))
    (jsOr req.xRealIp (jsOr req.remoteAddress (some "unknown".toList)))).getD []

/-- The local `key` of `checkRateLimit`. -/
def rateKey (clientIP : JsString) (windowStart : Nat) : JsString :=
  clientIP ++ "-".toList ++ numberToString windowStart

/-- Function `checkRateLimit` of the source.  `now` is `Date.now()` and `draw`
is the outcome of `Math.random() < 0.1`. -/
def checkRateLimit (req : Request) (now : Nat) (draw : Bool) (rateLimits : RateLimits) :
    Bool × RateLimits :=
  let windowStart := now / RATE_LIMIT_WINDOW
  let key := rateKey (clientIP req) windowStart
  -- Get current request count for this IP in current window
  let count := (mapGet rateLimits key).getD 0
  if count ≥ RATE_LIMIT_MAX then (false, rateLimits) -- Rate limit exceeded
  else
    -- Increment request count
    let rateLimits := mapSet rateLimits key (count + 1)
    -- Cleanup old entries
    let rateLimits := if draw then cleanupRateLimits rateLimits windowStart else rateLimits
    (true, rateLimits)

deriving instance DecidableEq for Except

/-- Function `validateRequest` of the source: `.error msg` is
`throw new Error(msg)`. -/
def validateRequest (req : Request) (now : Nat) (draw : Bool) (rateLimits : RateLimits) :
    Except JsString Bool × RateLimits :=
  -- 1. Origin validation
  if !validateOrigin req then (.error "Invalid origin".toList, rateLimits)
  -- 2. User-Agent validation
  else if !validateUserAgent req then (.error "Invalid user agent".toList, rateLimits)
  else
    -- 3. Rate limiting
    let r := checkRateLimit req now draw rateLimits
    if !r.1 then (.error "Rate limit exceeded".toList, r.2)
    else (.ok true, r.2)

/-! ## `api/keys/[service].js` -/

/-- The JavaScript values that a property read on `SERVICE_MAP` can give. -/
inductive JsValue where
  /-- The value `undefined`. -/
  | undefined
  /-- A string. -/
  | string (s : JsString)
  /-- A built-in function object with the given `name`. -/
  | native (name : JsString)
  /-- The object `Object.prototype`. -/
  | objectPrototype
  deriving DecidableEq

/-- Truthiness of a `JsValue`. -/
def JsValue.truthy : JsValue → Bool
  | .undefined => false
  | .string s => !s.isEmpty
  | .native _ => true
  | .objectPrototype => true

/-- The string a `JsValue` becomes when it is used as a property key. -/
def JsValue.toPropertyKey : JsValue → JsString
  | .undefined => "undefined".toList
  | .string s => s
  | .native name => "function ".toList ++ name ++ "() { [native code] }".toList
  | .objectPrototype => "[object Object]".toList

/-- Property read on `Object.prototype`, the prototype of every object
literal: its members as Node.js defines them. -/
def objectPrototypeGet (name : JsString) : JsValue :=
  if name = "constructor".toList then .native "Object".toList
  else if name = "__proto__".toList then .objectPrototype
  else if name ∈ ["__defineGetter__".toList, "__defineSetter__".toList,
      "hasOwnProperty".toList, "__lookupGetter__".toList, "__lookupSetter__".toList,
      "isPrototypeOf".toList, "propertyIsEnumerable".toList, "toString".toList,
      "valueOf".toList, "toLocaleString".toList] then .native name
  else .undefined

/-- The own properties of the object literal `SERVICE_MAP` of the source:
supported services and their environment variable keys. -/
def SERVICE_MAP_own : List (JsString × JsString) :=
  [("assemblyai".toList, "ASSEMBLYAI_API_KEY".toList),
   ("deepl".toList, "DEEPL_API_KEY".toList),
   ("gemini".toList, "GEMINI_API_KEY".toList)]

/-- Property read `SERVICE_MAP[service]`: an own property, else the member of
`Object.prototype` of that name, else `undefined`. -/
def SERVICE_MAP (service : JsString) : JsValue :=
  match SERVICE_MAP_own.lookup service with
  | some envKey => .string envKey
  | none => objectPrototypeGet service

/-- The process environment `process.env`: variable name to value. -/
abbrev Env := JsString → Option JsString

/-- The JSON body of a response. -/
inductive Body where
  /-- No body: `res.status(..).end()`. -/
  | empty
  /-- Body `{ error }`. -/
  | error (error : JsString)
  /-- Body `{ error, supported }`. -/
  | invalidService (error : JsString) (supported : List JsString)
  /-- Body `{ apiKey, service, timestamp }`; the timestamp is kept as the
  clock reading it is formatted from. -/
  | key (apiKey : JsString) (service : JsString) (timestamp : Nat)
  deriving DecidableEq

/-- What the handler writes to `res`. -/
structure Response where
  /-- Header `Access-Control-Allow-Origin`, if set. -/
  allowOrigin : Option JsString
  /-- Header `Access-Control-Allow-Methods`. -/
  allowMethods : JsString
  /-- Header `Access-Control-Allow-Headers`. -/
  allowHeaders : JsString
  /-- Status code. -/
  status : Nat
  /-- Body. -/
  body : Body
  deriving DecidableEq

/-- The `apiKey` member of a response body, if it has one. -/
def Body.apiKey? : Body → Option JsString
  | .key apiKey _ _ => some apiKey
  | _ => none

/-- The `try` block of the key-lookup handler: status and body it answers
with, or the message of the error it throws. -/
def keysTry (env : Env) (req : Request) (now : Nat) (draw : Bool) (stamp : Nat)
    (rateLimits : RateLimits) : Except JsString (Nat × Body) × RateLimits :=
  -- Security validation
  match validateRequest req now draw rateLimits with
  | (.error msg, rateLimits) => (.error msg, rateLimits)
  | (.ok _, rateLimits) =>
    -- Get service name from URL parameter
    match req.query with
    | none =>
      (.error "Cannot destructure property 'service' of 'req.query' as it is undefined.".toList,
        rateLimits)
    | some service =>
      if !truthy service || !(SERVICE_MAP (service.getD [])).truthy then
        (.ok (400, .invalidService "Invalid service".toList (SERVICE_MAP_own.map Prod.fst)),
          rateLimits)
      else
        -- Get API key from environment
        let envKey := SERVICE_MAP (service.getD [])
        let apiKey := env envKey.toPropertyKey
        if !truthy apiKey then
          (.ok (500, .error "Service not configured".toList), rateLimits)
        else
          -- Return API key
          (.ok (200, .key (apiKey.getD []) (service.getD []) stamp), rateLimits)

/-- The handler exported by `api/keys/[service].js`.  `now` is the clock read
by the rate limiter, `draw` its random draw, `stamp` the clock read for the
timestamp of the answer. -/
def keysHandler (env : Env) (req : Request) (now : Nat) (draw : Bool) (stamp : Nat)
    (rateLimits : RateLimits) : Response × RateLimits :=
  -- CORS headers - allow same domain requests
  let origin := req.origin
  let res : Nat → Body → Response := fun status body =>
    { allowOrigin := if truthy origin then origin else none,
      allowMethods := "GET, OPTIONS".toList,
      allowHeaders := "Content-Type".toList,
      status := status, body := body }
  -- Handle preflight OPTIONS request
  if req.method = "OPTIONS".toList then (res 200 .empty, rateLimits)
  -- Only allow GET requests
  else if req.method ≠ "GET".toList then
    (res 405 (.error "Method not allowed".toList), rateLimits)
  else
    match keysTry env req now draw stamp rateLimits with
    | (.ok (status, body), rateLimits) => (res status body, rateLimits)
    | (.error message, rateLimits) =>
      -- Return appropriate error status
      if includes message "Rate limit".toList then
        (res 429 (.error "Too many requests".toList), rateLimits)
      else if includes message "Invalid origin".toList
          || includes message "Invalid user agent".toList then
        (res 403 (.error "Forbidden".toList), rateLimits)
      else (res 500 (.error "Internal server error".toList), rateLimits)

/-! ## `api/translate.js` -/

/-- The members of `req.body` that the translate handler reads.  `text` is
`some items` when it is an array and `none` otherwise (absent, or a value that
is not an array); a language member is `none` when it is absent. -/
structure TranslateBody where
  /-- Member `text`. -/
  text : Option (List JsString)
  /-- Member `target_lang`. -/
  target_lang : Option JsString
  /-- Member `source_lang`. -/
  source_lang : Option JsString
  deriving DecidableEq

/-- The request that the translate handler sends with `fetch`. -/
structure FetchRequest where
  /-- The URL called. -/
  url : JsString
  /-- Header `Authorization`. -/
  authorization : JsString
  /-- Header `Content-Type`. -/
  contentType : JsString
  /-- The object that is sent as JSON. -/
  body : TranslateBody
  deriving DecidableEq

/-- What the call to the upstream API gives: `fetch` rejects with an error of
the given message, or a response arrives with its status and the outcome of
reading its body (`text()` of a failed response, `json()` of a successful
one), which is the data read or the message of the error thrown. -/
inductive Upstream where
  /-- `fetch` rejects. -/
  | rejected (message : JsString)
  /-- A response arrives. -/
  | response (status : Nat) (body : Except JsString JsString)

/-- The JSON body of an answer of the translate handler. -/
inductive TranslateAnswer where
  /-- No body: `res.status(..).end()`. -/
  | empty
  /-- Body `{ error }`. -/
  | error (error : JsString)
  /-- The translation result of the upstream API, passed on. -/
  | translation (translationData : JsString)
  deriving DecidableEq

/-- What the translate handler writes to `res`. -/
structure TranslateResponse where
  /-- Header `Access-Control-Allow-Origin`, if set. -/
  allowOrigin : Option JsString
  /-- Header `Access-Control-Allow-Methods`. -/
  allowMethods : JsString
  /-- Header `Access-Control-Allow-Headers`. -/
  allowHeaders : JsString
  /-- Status code. -/
  status : Nat
  /-- Body. -/
  body : TranslateAnswer
  deriving DecidableEq

/-- The `try` block of the translate handler: status and body it answers
with, or the message of the error it throws.  `body` is `req.body` (`none`
when it is `undefined`) and `fetch` stands for the upstream API. -/
def translateTry (env : Env) (fetch : FetchRequest → Upstream) (req : Request)
    (body : Option TranslateBody) (now : Nat) (draw : Bool) (rateLimits : RateLimits) :
    Except JsString (Nat × TranslateAnswer) × RateLimits :=
  -- Security validation
  match validateRequest req now draw rateLimits with
  | (.error msg, rateLimits) => (.error msg, rateLimits)
  | (.ok _, rateLimits) =>
    -- Get DeepL API key from environment
    let apiKey := env "DEEPL_API_KEY".toList
    if !truthy apiKey then
      (.ok (500, .error "Translation service not configured".toList), rateLimits)
    else
      -- Parse request body
      match body with
      | none =>
        (.error "Cannot destructure property 'text' of 'req.body' as it is undefined.".toList,
          rateLimits)
      | some b =>
        if b.text.isNone || (b.text.getD []).length = 0 then
          (.ok (400, .error "Text is required and must be an array".toList), rateLimits)
        else if !truthy b.target_lang then
          (.ok (400, .error "Target language is required".toList), rateLimits)
        else
          -- Prepare DeepL API request
          let deeplUrl := "https://api-free.deepl.com/v2/translate".toList
          let sent : TranslateBody :=
            { text := b.text, target_lang := b.target_lang,
              source_lang := if truthy b.source_lang then b.source_lang else none }
          -- Call DeepL API
          match fetch { url := deeplUrl,
                        authorization := "DeepL-Auth-Key ".toList ++ apiKey.getD [],
                        contentType := "application/json".toList,
                        body := sent } with
          | .rejected message => (.error message, rateLimits)
          | .response status read =>
            if !(decide (200 ≤ status) && decide (status ≤ 299)) then
              match read with
              | .error message => (.error message, rateLimits)
              | .ok _ =>
                (.ok (status,
                  .error ("Translation failed: ".toList ++ numberToString status)), rateLimits)
            else
              match read with
              | .error message => (.error message, rateLimits)
              | .ok translationData =>
                -- Return translation result
                (.ok (200, .translation translationData), rateLimits)

/-- The handler exported by `api/translate.js`. -/
def translateHandler (env : Env) (fetch : FetchRequest → Upstream) (req : Request)
    (body : Option TranslateBody) (now : Nat) (draw : Bool) (rateLimits : RateLimits) :
    TranslateResponse × RateLimits :=
  -- CORS headers - allow same domain requests
  let origin := req.origin
  let res : Nat → TranslateAnswer → TranslateResponse := fun status answer =>
    { allowOrigin := if truthy origin then origin else none,
      allowMethods := "POST, OPTIONS".toList,
      allowHeaders := "Content-Type".toList,
      status := status, body := answer }
  -- Handle preflight OPTIONS request
  if req.method = "OPTIONS".toList then (res 200 .empty, rateLimits)
  -- Only allow POST requests
  else if req.method ≠ "POST".toList then
    (res 405 (.error "Method not allowed".toList), rateLimits)
  else
    match translateTry env fetch req body now draw rateLimits with
    | (.ok (status, answer), rateLimits) => (res status answer, rateLimits)
    | (.error message, rateLimits) =>
      -- Return appropriate error status
      if includes message "Rate limit".toList then
        (res 429 (.error "Too many requests".toList), rateLimits)
      else if includes message "Invalid origin".toList
          || includes message "Invalid user agent".toList then
        (res 403 (.error "Forbidden".toList), rateLimits)
      else (res 500 (.error "Internal server error".toList), rateLimits)

/-- The status with which the `catch` block of both handlers answers an error
of the given message. -/
def catchStatus (message : JsString) : Nat :=
  if includes message "Rate limit".toList then 429
  else if includes message "Invalid origin".toList
      || includes message "Invalid user agent".toList then 403
  else 500

/-! ## The end-to-end request of the specification -/

/-- The request of the end-to-end property: Host "proxy.example.com", Origin
"https://app.example.com", User-Agent "Mozilla/5.0", sent as a GET for the
service "deepl" by the client that the given X-Forwarded-For value names. -/
def browserRequest (xForwardedFor : JsString) : Request :=
  { method := "GET".toList, origin := some "https://app.example.com".toList,
    referer := none, host := some "proxy.example.com".toList,
    userAgent := some "Mozilla/5.0".toList, xForwardedFor := some xForwardedFor,
    xRealIp := none, remoteAddress := none, query := some (some "deepl".toList) }

/-! ## Executions -/

/-- A run of `checkRateLimit` calls, each with its request, clock value and
draw, threading the table from call to call: the values returned and the
final table. -/
def checkRateLimits (rateLimits : RateLimits) :
    List (Request × Nat × Bool) → List Bool × RateLimits
  | [] => ([], rateLimits)
  | (req, now, draw) :: calls =>
    let r := checkRateLimit req now draw rateLimits
    let rs := checkRateLimits r.2 calls
    (r.1 :: rs.1, rs.2)

/-- A run of `validateRequest` calls with the same request, each with its
clock value and draw, threading the table from call to call: the outcomes and
the final table. -/
def validateRequests (req : Request) (rateLimits : RateLimits) :
    List (Nat × Bool) → List (Except JsString Bool) × RateLimits
  | [] => ([], rateLimits)
  | (now, draw) :: calls =>
    let r := validateRequest req now draw rateLimits
    let rs := validateRequests req r.2 calls
    (r.1 :: rs.1, rs.2)

/-- In a run of calls with the values they returned: how many calls of the
given identity at clock values of window `w` returned true. -/
def accepted (identity : JsString) (w : Nat) :
    List (Request × Nat × Bool) → List Bool → Nat
  | (req, now, _) :: calls, r :: results =>
    (if clientIP req = identity ∧ now / RATE_LIMIT_WINDOW = w ∧ r = true then 1 else 0)
      + accepted identity w calls results
  | _, _ => 0

/-- The test that `cleanupRateLimits` makes on one key:
`parseInt(key.split('-')[1]) < cutoff`, false when the number is `NaN`. -/
def keyIsOld (cutoff : Int) (key : JsString) : Bool :=
  match parseInt ((split key "-".toList)[1]?) with
  | some w => decide (w < cutoff)
  | none => false

/-! ## The root-domain algorithm in the words of the specification -/

/-- Specification step 1: discard everything up to and including the first
occurrence of `sep`. -/
def specDropThroughFirst (sep : JsString) : JsString → JsString
  | [] => []
  | c :: cs =>
    if sep.isPrefixOf (c :: cs) then (c :: cs).drop sep.length
    else specDropThroughFirst sep cs

/-- Keep the text before the first occurrence of `sep` (all of it when `sep`
does not occur). -/
def specTakeBeforeFirst (sep : JsString) : JsString → JsString
  | [] => []
  | c :: cs =>
    if sep.isPrefixOf (c :: cs) then [] else c :: specTakeBeforeFirst sep cs

/-- Specification step 4: with two or more labels the last two joined by ".",
otherwise the hostname unchanged. -/
def specLastTwoLabels (labels : List JsString) (hostname : JsString) : JsString :=
  match labels.reverse with
  | last :: prev :: _ => prev ++ ".".toList ++ last
  | _ => hostname

/-- The four-step algorithm of the specification, as written there: (1) if
the input contains "://", discard everything up to and including its first
occurrence; (2) discard everything from the first "/" onward; (3) split the
rest on "."; (4) return the last two labels joined by "." when there are at
least two, the hostname otherwise. -/
def specRootDomain (input : JsString) : JsString :=
  let afterScheme :=
    if "://".toList <:+: input then specDropThroughFirst "://".toList input else input
  let hostname := afterScheme.takeWhile (fun c => c != '/')
  specLastTwoLabels (hostname.splitOn '.') hostname

/-- The algorithm of the specification with step 1 as the code has it: if the
input contains "://", keep only what stands between its first occurrence and
the next one (or the end of the input). -/
def specRootDomainAmended (input : JsString) : JsString :=
  let afterScheme :=
    if "://".toList <:+: input then
      specTakeBeforeFirst "://".toList (specDropThroughFirst "://".toList input)
    else input
  let hostname := afterScheme.takeWhile (fun c => c != '/')
  specLastTwoLabels (hostname.splitOn '.') hostname

/-! ## Facts about the string operations -/

theorem includes_iff_isInfix (s pat : JsString) : includes s pat = true ↔ pat <:+: s := by
  induction s with
  | nil => simp [includes, List.isPrefixOf_iff_prefix]
  | cons c cs ih =>
    simp only [includes, Bool.or_eq_true, ih, List.isPrefixOf_iff_prefix]
    exact (List.infix_cons_iff).symm

/-! ## The three checks and their order -/

theorem validateOrigin_false_of_no_host (req : Request) (h : req.host = none) :
    validateOrigin req = false := by
  simp [validateOrigin, h, truthy]

theorem validateOrigin_false_of_no_origin_referer (req : Request)
    (ho : req.origin = none) (hr : req.referer = none) : validateOrigin req = false := by
  simp [validateOrigin, ho, hr, truthy]

/-- Claim C4: `validateRequest` reports the first failing check in the order
origin, user agent, rate limit.  It throws 'Invalid origin' exactly when
`validateOrigin` is false, 'Invalid user agent' exactly when `validateOrigin`
is true and `validateUserAgent` is false, 'Rate limit exceeded' exactly when
both are true and `checkRateLimit` returns false, and it returns `true`
exactly when all three checks pass. -/
theorem validateRequest_first_failure_wins (req : Request) (now : Nat) (draw : Bool)
    (rateLimits : RateLimits) :
    ((validateRequest req now draw rateLimits).1 = .error "Invalid origin".toList
        ↔ validateOrigin req = false) ∧
    ((validateRequest req now draw rateLimits).1 = .error "Invalid user agent".toList
        ↔ (validateOrigin req = true ∧ validateUserAgent req = false)) ∧
    ((validateRequest req now draw rateLimits).1 = .error "Rate limit exceeded".toList
        ↔ (validateOrigin req = true ∧ validateUserAgent req = true
            ∧ (checkRateLimit req now draw rateLimits).1 = false)) ∧
    ((validateRequest req now draw rateLimits).1 = .ok true
        ↔ (validateOrigin req = true ∧ validateUserAgent req = true
            ∧ (checkRateLimit req now draw rateLimits).1 = true)) := by
  unfold validateRequest
  cases hO : validateOrigin req <;> cases hU : validateUserAgent req <;>
    cases hR : (checkRateLimit req now draw rateLimits).1 <;>
    simp [hR]

/-- Claim C6: a request with neither an Origin nor a Referer header, and
likewise a request with no Host header, fails the origin check:
`validateOrigin` is false and `validateRequest` throws 'Invalid origin',
whatever the other headers, the clock, the draw and the table are. -/
theorem validateRequest_invalid_origin_of_missing_headers (req : Request) (now : Nat)
    (draw : Bool) (rateLimits : RateLimits)
    (h : (req.origin = none ∧ req.referer = none) ∨ req.host = none) :
    validateOrigin req = false ∧
    (validateRequest req now draw rateLimits).1 = .error "Invalid origin".toList := by
  have hO : validateOrigin req = false := by
    rcases h with ⟨ho, hr⟩ | hh
    · exact validateOrigin_false_of_no_origin_referer req ho hr
    · exact validateOrigin_false_of_no_host req hh
  refine ⟨hO, ?_⟩
  simp [validateRequest, hO]

/-- Witness for C6: a request with a Host and a browser User-Agent but neither
Origin nor Referer. -/
theorem validateRequest_invalid_origin_of_missing_headers_witness :
    validateOrigin
        { method := "GET".toList, origin := none, referer := none,
          host := some "proxy.example.com".toList, userAgent := some "Mozilla/5.0".toList,
          xForwardedFor := none, xRealIp := none, remoteAddress := none,
          query := none } = false ∧
    (validateRequest
        { method := "GET".toList, origin := none, referer := none,
          host := some "proxy.example.com".toList, userAgent := some "Mozilla/5.0".toList,
          xForwardedFor := none, xRealIp := none, remoteAddress := none,
          query := none } 0 true []).1 = .error "Invalid origin".toList :=
  validateRequest_invalid_origin_of_missing_headers _ 0 true [] (Or.inl ⟨rfl, rfl⟩)

/-- Claim C7: `validateUserAgent` is true if and only if a User-Agent header
is present and its value contains the case-sensitive substring "Mozilla".  It
is false for "curl/7.68.0", false for "mozilla/5.0", false when the header is
absent, and true for "Mozilla/5.0 (...)". -/
theorem validateUserAgent_iff_contains_Mozilla :
    (∀ req : Request, validateUserAgent req = true ↔
      ∃ ua, req.userAgent = some ua ∧ "Mozilla".toList <:+: ua) ∧
    (∀ req : Request, req.userAgent = some "curl/7.68.0".toList →
      validateUserAgent req = false) ∧
    (∀ req : Request, req.userAgent = some "mozilla/5.0".toList →
      validateUserAgent req = false) ∧
    (∀ req : Request, req.userAgent = none → validateUserAgent req = false) ∧
    (∀ req : Request, req.userAgent = some "Mozilla/5.0 (...)".toList →
      validateUserAgent req = true) := by
  refine ⟨?_, ?_, ?_, ?_, ?_⟩
  · intro req
    cases hua : req.userAgent with
    | none => simp [validateUserAgent, hua, truthy]
    | some ua =>
      simp only [validateUserAgent, hua, truthy, Option.getD_some, Option.some.injEq,
        exists_eq_left']
      rw [← includes_iff_isInfix]
      cases hi : includes ua "Mozilla".toList
      · simp
      · have hne : ua ≠ [] := by
          rintro rfl
          revert hi
          decide
        cases ua with
        | nil => exact absurd rfl hne
        | cons c cs => simp
  · intro req h
    simp only [validateUserAgent, h]
    decide
  · intro req h
    simp only [validateUserAgent, h]
    decide
  · intro req h
    simp [validateUserAgent, h, truthy]
  · intro req h
    simp only [validateUserAgent, h]
    decide

theorem truthy_eq_true_iff (v : Option JsString) :
    truthy v = true ↔ ∃ s, v = some s ∧ s ≠ [] := by
  cases v with
  | none => simp [truthy]
  | some s => cases s <;> simp [truthy]

/-- The origin check in closed form: a non-empty Host, and a non-empty Origin
or a non-empty Referer with the root domain of the Host. -/
theorem validateOrigin_eq_true_iff (req : Request) :
    validateOrigin req = true ↔
      ∃ h, req.host = some h ∧ h ≠ [] ∧
        ((∃ o, req.origin = some o ∧ o ≠ [] ∧ extractRootDomain o = extractRootDomain h) ∨
         (∃ r, req.referer = some r ∧ r ≠ [] ∧ extractRootDomain r = extractRootDomain h)) := by
  unfold validateOrigin
  cases hh : req.host with
  | none => simp [truthy]
  | some h =>
    cases h with
    | nil => simp [truthy]
    | cons c cs =>
      cases ho : req.origin with
      | none =>
        cases hr : req.referer with
        | none => simp [truthy]
        | some r => cases r <;> simp [truthy]
      | some o =>
        cases hr : req.referer with
        | none => cases o <;> simp [truthy]
        | some r => cases o <;> cases r <;> simp [truthy]

/-- Claim C5, as the code has it: for every request with a non-empty Host
header and a non-empty Origin header whose root domains are equal,
`validateOrigin` returns true, whatever the Referer header is. -/
theorem validateOrigin_true_of_same_root_origin (req : Request) (host origin : JsString)
    (hh : req.host = some host) (ho : req.origin = some origin)
    (hhne : host ≠ []) (hone : origin ≠ [])
    (heq : extractRootDomain host = extractRootDomain origin) :
    validateOrigin req = true :=
  (validateOrigin_eq_true_iff req).2 ⟨host, hh, hhne, Or.inl ⟨origin, ho, hone, heq.symm⟩⟩

/-- Witness for C5 as amended: Host "proxy.example.com", Origin
"https://app.example.com" and a Referer of another domain. -/
theorem validateOrigin_true_of_same_root_origin_witness :
    validateOrigin
      { method := "GET".toList, origin := some "https://app.example.com".toList,
        referer := some "https://evil.com/page".toList,
        host := some "proxy.example.com".toList, userAgent := none,
        xForwardedFor := none, xRealIp := none, remoteAddress := none,
        query := none } = true :=
  validateOrigin_true_of_same_root_origin _ "proxy.example.com".toList
    "https://app.example.com".toList rfl rfl (by decide) (by decide) (by decide)

/-- Counterexample to C5 as stated: with an empty Host header and an empty
Origin header both root domains are the empty string, so they are equal, and
`validateOrigin` returns false. -/
theorem validateOrigin_empty_headers_counterexample :
    extractRootDomain ([] : JsString) = extractRootDomain ([] : JsString) ∧
    validateOrigin
      { method := "GET".toList, origin := some [], referer := none,
        host := some [], userAgent := some "Mozilla/5.0".toList,
        xForwardedFor := none, xRealIp := none, remoteAddress := none,
        query := none } = false := by
  decide

/-! ## The key-lookup handler -/

theorem validateRequest_ok_iff (req : Request) (now : Nat) (draw : Bool)
    (rateLimits : RateLimits) (v : Bool) :
    (validateRequest req now draw rateLimits).1 = .ok v ↔
      (v = true ∧ validateOrigin req = true ∧ validateUserAgent req = true
        ∧ (checkRateLimit req now draw rateLimits).1 = true) := by
  unfold validateRequest
  cases hO : validateOrigin req <;> cases hU : validateUserAgent req <;>
    cases hR : (checkRateLimit req now draw rateLimits).1 <;>
    simp [hR, eq_comm]

/-- What the `try` block needs to answer with a key. -/
theorem keysTry_key_only_if (env : Env) (req : Request) (now : Nat) (draw : Bool)
    (stamp : Nat) (rateLimits : RateLimits) (status : Nat) (body : Body) (k : JsString)
    (h : (keysTry env req now draw stamp rateLimits).1 = .ok (status, body))
    (hk : body.apiKey? = some k) :
    status = 200 ∧ validateOrigin req = true ∧ validateUserAgent req = true ∧
    (checkRateLimit req now draw rateLimits).1 = true ∧
    ∃ service, req.query = some (some service) ∧ service ≠ [] ∧
      (SERVICE_MAP service).truthy = true ∧
      env (SERVICE_MAP service).toPropertyKey = some k ∧
      body = .key k service stamp := by
  unfold keysTry at h
  rcases hV : validateRequest req now draw rateLimits with ⟨v, t⟩
  rw [hV] at h
  cases v with
  | error msg => simp at h
  | ok b =>
    have hv := (validateRequest_ok_iff req now draw rateLimits b).1 (by rw [hV])
    obtain ⟨-, hO, hU, hR⟩ := hv
    cases hq : req.query with
    | none => simp [hq] at h
    | some service =>
      simp only [hq] at h
      split_ifs at h with h1 h2
      · simp only [Except.ok.injEq, Prod.mk.injEq] at h
        obtain ⟨-, rfl⟩ := h
        simp [Body.apiKey?] at hk
      · simp only [Except.ok.injEq, Prod.mk.injEq] at h
        obtain ⟨-, rfl⟩ := h
        simp [Body.apiKey?] at hk
      · simp only [Bool.not_eq_true, Bool.or_eq_false_iff, Bool.not_eq_false',
          Bool.or_eq_true, not_or] at h1 h2
        obtain ⟨s, hs, hsne⟩ := (truthy_eq_true_iff service).1 (by simpa using h1.1)
        obtain ⟨a, ha, -⟩ := (truthy_eq_true_iff _).1 (by simpa using h2)
        subst hs
        simp only [Option.getD_some] at h h1 ha
        rw [ha] at h
        simp only [Option.getD_some, Except.ok.injEq, Prod.mk.injEq] at h
        obtain ⟨rfl, rfl⟩ := h
        simp only [Body.apiKey?, Option.some.injEq] at hk
        subst hk
        exact ⟨rfl, hO, hU, hR, s, rfl, hsne, by simpa using h1.2, ha, rfl⟩

/-- What the handler needs to answer with a key: status 200 goes with it, the
method is GET, the three checks passed, and the key is the value that the
environment holds under the property key `SERVICE_MAP[service]`. -/
theorem keysHandler_key_only_if (env : Env) (req : Request) (now : Nat) (draw : Bool)
    (stamp : Nat) (rateLimits : RateLimits) (k : JsString)
    (hk : (keysHandler env req now draw stamp rateLimits).1.body.apiKey? = some k) :
    (keysHandler env req now draw stamp rateLimits).1.status = 200 ∧
    req.method = "GET".toList ∧
    validateOrigin req = true ∧ validateUserAgent req = true ∧
    (checkRateLimit req now draw rateLimits).1 = true ∧
    ∃ service, req.query = some (some service) ∧ service ≠ [] ∧
      (SERVICE_MAP service).truthy = true ∧
      env (SERVICE_MAP service).toPropertyKey = some k := by
  unfold keysHandler at hk ⊢
  dsimp only at hk ⊢
  by_cases hm1 : req.method = "OPTIONS".toList
  · rw [if_pos hm1] at hk
    simp [Body.apiKey?] at hk
  rw [if_neg hm1] at hk ⊢
  by_cases hm2 : req.method ≠ "GET".toList
  · rw [if_pos hm2] at hk
    simp [Body.apiKey?] at hk
  rw [if_neg hm2] at hk ⊢
  rcases hT : keysTry env req now draw stamp rateLimits with ⟨r, t⟩
  simp only [hT] at hk ⊢
  cases r with
  | error msg =>
    simp only at hk
    split_ifs at hk <;> simp [Body.apiKey?] at hk
  | ok sb =>
    obtain ⟨status, body⟩ := sb
    simp only at hk ⊢
    have := keysTry_key_only_if env req now draw stamp rateLimits status body k
      (by rw [hT]) hk
    obtain ⟨hs, hO, hU, hR, service, hq, hne, ht, he, -⟩ := this
    exact ⟨hs, not_not.1 hm2, hO, hU, hR, service, hq, hne, ht, he⟩

theorem SERVICE_MAP_own_lookup_some (service envKey : JsString)
    (h : SERVICE_MAP_own.lookup service = some envKey) :
    service ∈ ["assemblyai".toList, "deepl".toList, "gemini".toList] := by
  unfold SERVICE_MAP_own at h
  by_cases h1 : service = "assemblyai".toList
  · simp [h1]
  by_cases h2 : service = "deepl".toList
  · simp [h2]
  by_cases h3 : service = "gemini".toList
  · simp [h3]
  exfalso
  have e1 : (service == "assemblyai".toList) = false := by simpa using h1
  have e2 : (service == "deepl".toList) = false := by simpa using h2
  have e3 : (service == "gemini".toList) = false := by simpa using h3
  rw [List.lookup_cons, e1, List.lookup_cons, e2, List.lookup_cons, e3] at h
  simp at h

/-- The key-lookup contract for an environment that defines no variable
named by the string form of a member of `Object.prototype`: the handler
answers with an `apiKey` only with status 200, method GET, a passed origin
check (a Host, and an Origin or Referer of the same root domain), a
User-Agent containing "Mozilla", an allowed rate-limit check, a service among
assemblyai, deepl and gemini, and the key is the environment value of that
service. -/
theorem keysHandler_key_only_for_supported_service (env : Env) (req : Request) (now : Nat)
    (draw : Bool) (stamp : Nat) (rateLimits : RateLimits) (k : JsString)
    (hEnv : ∀ name, (objectPrototypeGet name).truthy = true →
      env (objectPrototypeGet name).toPropertyKey = none)
    (hk : (keysHandler env req now draw stamp rateLimits).1.body.apiKey? = some k) :
    (keysHandler env req now draw stamp rateLimits).1.status = 200 ∧
    req.method = "GET".toList ∧
    (∃ h, req.host = some h ∧
      ((∃ o, req.origin = some o ∧ extractRootDomain o = extractRootDomain h) ∨
       (∃ r, req.referer = some r ∧ extractRootDomain r = extractRootDomain h))) ∧
    (∃ ua, req.userAgent = some ua ∧ "Mozilla".toList <:+: ua) ∧
    (checkRateLimit req now draw rateLimits).1 = true ∧
    ∃ service envKey, req.query = some (some service) ∧
      service ∈ ["assemblyai".toList, "deepl".toList, "gemini".toList] ∧
      SERVICE_MAP_own.lookup service = some envKey ∧ env envKey = some k := by
  obtain ⟨hs, hm, hO, hU, hR, service, hq, -, ht, he⟩ :=
    keysHandler_key_only_if env req now draw stamp rateLimits k hk
  refine ⟨hs, hm, ?_, ?_, hR, service, ?_⟩
  · obtain ⟨h, hh, -, hor⟩ := (validateOrigin_eq_true_iff req).1 hO
    refine ⟨h, hh, ?_⟩
    rcases hor with ⟨o, ho, -, heq⟩ | ⟨r, hr, -, heq⟩
    · exact Or.inl ⟨o, ho, heq⟩
    · exact Or.inr ⟨r, hr, heq⟩
  · cases hua : req.userAgent with
    | none => simp [validateUserAgent, hua, truthy] at hU
    | some ua =>
      refine ⟨ua, rfl, (includes_iff_isInfix ua _).1 ?_⟩
      cases hi : includes ua "Mozilla".toList
      · simp only [validateUserAgent, hua, Option.getD_some, hi, Bool.not_false,
          Bool.or_true, if_true] at hU
        exact absurd hU (by decide)
      · rfl
  · unfold SERVICE_MAP at ht he
    cases hl : SERVICE_MAP_own.lookup service with
    | none =>
      rw [hl] at ht he
      rw [hEnv service ht] at he
      exact absurd he (by simp)
    | some envKey =>
      rw [hl] at he
      exact ⟨envKey, hq, SERVICE_MAP_own_lookup_some service envKey hl, rfl, he⟩

/-- The key-lookup handler on the end-to-end request with only
`DEEPL_API_KEY` configured: status 200 and the configured key. -/
theorem keysHandler_returns_configured_key :
    (keysHandler
      (fun name => if name = "DEEPL_API_KEY".toList then some "secret".toList else none)
      (browserRequest "203.0.113.7".toList) 1762290000000 false 1762290000001 []).1 =
      { allowOrigin := some "https://app.example.com".toList,
        allowMethods := "GET, OPTIONS".toList, allowHeaders := "Content-Type".toList,
        status := 200, body := .key "secret".toList "deepl".toList 1762290000001 } := by
  decide

/-- Claim C1 at a failing input: the request is a GET with Host
"proxy.example.com", Origin "https://app.example.com", User-Agent
"Mozilla/5.0" and service "constructor", and the environment defines only the
variable named "function Object() { [native code] }".  The service
"constructor" is not an own property of `SERVICE_MAP`, yet the handler answers
200 with that variable's value as `apiKey`. -/
theorem keysHandler_inherited_service_returns_key :
    SERVICE_MAP_own.lookup "constructor".toList = none ∧
    (keysHandler
      (fun name =>
        if name = "function Object() { [native code] }".toList then some "leak".toList
        else none)
      { method := "GET".toList, origin := some "https://app.example.com".toList,
        referer := none, host := some "proxy.example.com".toList,
        userAgent := some "Mozilla/5.0".toList, xForwardedFor := none, xRealIp := none,
        remoteAddress := some "203.0.113.7".toList,
        query := some (some "constructor".toList) }
      0 false 0 []).1 =
      { allowOrigin := some "https://app.example.com".toList,
        allowMethods := "GET, OPTIONS".toList, allowHeaders := "Content-Type".toList,
        status := 200, body := .key "leak".toList "constructor".toList 0 } := by
  decide

/-! ## `split` and the root domain -/

theorem splitGo_skip (sep : JsString) (k : Nat) (s : JsString) :
    splitGo sep k s = splitGo sep 0 (s.drop k) := by
  induction k generalizing s with
  | zero => simp
  | succ k ih =>
    cases s with
    | nil => simp [splitGo]
    | cons c cs => simp only [splitGo, List.drop_succ_cons]; exact ih cs

theorem split_nil (sep : JsString) : split [] sep = [[]] := by
  simp [split, splitGo]

theorem split_cons_of_match (sep : JsString) (c : Char) (cs : JsString)
    (hsep : sep ≠ []) (h : sep.isPrefixOf (c :: cs) = true) :
    split (c :: cs) sep = [] :: split ((c :: cs).drop sep.length) sep := by
  unfold split
  rw [splitGo, if_pos h, splitGo_skip]
  cases sep with
  | nil => exact absurd rfl hsep
  | cons d ds => simp

theorem split_cons_of_no_match (sep : JsString) (c : Char) (cs : JsString)
    (h : sep.isPrefixOf (c :: cs) = false) :
    split (c :: cs) sep = consHead c (split cs sep) := by
  unfold split
  rw [splitGo, if_neg (by simp [h])]

theorem split_ne_nil (s sep : JsString) (hsep : sep ≠ []) : split s sep ≠ [] := by
  induction s with
  | nil => simp [split_nil]
  | cons c cs ih =>
    cases h : sep.isPrefixOf (c :: cs)
    · rw [split_cons_of_no_match sep c cs h]
      cases hs : split cs sep <;> simp [consHead]
    · rw [split_cons_of_match sep c cs hsep h]
      simp

/-- The first piece of `split` is the text before the first separator. -/
theorem headD_split (s sep : JsString) (hsep : sep ≠ []) :
    (split s sep).headD [] = specTakeBeforeFirst sep s := by
  induction s with
  | nil => simp [split_nil, specTakeBeforeFirst]
  | cons c cs ih =>
    cases h : sep.isPrefixOf (c :: cs)
    · rw [split_cons_of_no_match sep c cs h, specTakeBeforeFirst, if_neg (by simp [h]),
        ← ih]
      cases hs : split cs sep with
      | nil => exact absurd hs (split_ne_nil cs sep hsep)
      | cons p ps => simp [consHead]
    · rw [split_cons_of_match sep c cs hsep h, specTakeBeforeFirst, if_pos h]
      rfl

/-- The second piece of `split`, when the separator occurs, is the text between
its first occurrence and the next one. -/
theorem getD_one_split (s sep : JsString) (hsep : sep ≠ []) (h : includes s sep = true) :
    (split s sep).getD 1 [] = specTakeBeforeFirst sep (specDropThroughFirst sep s) := by
  induction s with
  | nil =>
    cases sep with
    | nil => exact absurd rfl hsep
    | cons d ds => simp [includes] at h
  | cons c cs ih =>
    cases hp : sep.isPrefixOf (c :: cs)
    · have hcs : includes cs sep = true := by simpa [includes, hp] using h
      rw [split_cons_of_no_match sep c cs hp, specDropThroughFirst, if_neg (by simp [hp]),
        ← ih hcs]
      cases hs : split cs sep with
      | nil => exact absurd hs (split_ne_nil cs sep hsep)
      | cons p ps => simp [consHead]
    · rw [split_cons_of_match sep c cs hsep hp, specDropThroughFirst, if_pos hp,
        ← headD_split _ sep hsep]
      cases hs : split (List.drop sep.length (c :: cs)) sep <;> simp

theorem split_single_eq_splitOn (s : JsString) (d : Char) : split s [d] = s.splitOn d := by
  induction s with
  | nil => simp [split_nil, List.splitOn]
  | cons c cs ih =>
    rw [List.splitOn, List.splitOnP_cons]
    by_cases hcd : c = d
    · subst hcd
      rw [split_cons_of_match [c] c cs (by simp) (by simp)]
      simp [ih, List.splitOn]
    · have hp : List.isPrefixOf [d] (c :: cs) = false := by
        simp [List.isPrefixOf, Ne.symm hcd]
      rw [split_cons_of_no_match [d] c cs hp, ih, if_neg (by simpa using hcd)]
      rw [List.splitOn]
      cases hs : List.splitOnP (fun x => x == d) cs with
      | nil => exact absurd hs (List.splitOnP_ne_nil _ _)
      | cons q qs => simp [consHead]

theorem specTakeBeforeFirst_single (s : JsString) (d : Char) :
    specTakeBeforeFirst [d] s = s.takeWhile (fun c => c != d) := by
  induction s with
  | nil => rfl
  | cons c cs ih =>
    by_cases hcd : c = d
    · subst hcd
      simp [specTakeBeforeFirst]
    · have hp : List.isPrefixOf [d] (c :: cs) = false := by
        simp [List.isPrefixOf, Ne.symm hcd]
      rw [specTakeBeforeFirst, if_neg (by simp [hp]), ih, List.takeWhile_cons]
      simp [hcd]

/-- Taking the last two parts and joining them is step 4 of the
specification. -/
theorem join_slice_eq_specLastTwoLabels (parts : List JsString) (hostname : JsString) :
    (if parts.length ≥ 2 then join (slice parts (-2)) ".".toList else hostname)
      = specLastTwoLabels parts hostname := by
  unfold specLastTwoLabels
  rcases hr : parts.reverse with _ | ⟨last, _ | ⟨prev, more⟩⟩
  · have : parts = [] := by simpa using hr
    simp [this]
  · have : parts = [last] := by
      have := congrArg List.reverse hr
      simpa using this
    simp [this]
  · have hparts : parts = more.reverse ++ [prev, last] := by
      have := congrArg List.reverse hr
      simpa using this
    have hlen : parts.length = more.length + 2 := by simp [hparts]
    rw [if_pos (by omega)]
    simp only [slice, join]
    rw [if_pos (by decide)]
    have h2 : parts.length - (-2 : Int).natAbs = more.reverse.length := by
      simp [hlen]
    rw [h2, hparts, List.drop_left]
    simp [List.intercalate]

/-- Step 1 of the code: `split('://')[1]` under `includes('://')` is what
stands between the first "://" and the next one. -/
theorem scheme_step (s : JsString) :
    (if includes s "://".toList = true then (split s "://".toList).getD 1 [] else s)
      = (if "://".toList <:+: s then
          specTakeBeforeFirst "://".toList (specDropThroughFirst "://".toList s) else s) := by
  have hsep : "://".toList ≠ [] := by decide
  by_cases h : "://".toList <:+: s
  · rw [if_pos h, if_pos ((includes_iff_isInfix s _).2 h),
      getD_one_split s _ hsep ((includes_iff_isInfix s _).2 h)]
  · rw [if_neg h, if_neg (fun hi => h ((includes_iff_isInfix s _).1 hi))]

/-- Step 2 of the code: `split('/')[0]` is the text before the first "/". -/
theorem path_step (t : JsString) :
    (split t "/".toList).headD [] = t.takeWhile (fun c => c != '/') := by
  have hslash : "/".toList = ['/'] := rfl
  rw [headD_split _ _ (by decide), hslash, specTakeBeforeFirst_single]

/-- Claim C10, as the code has it: for every input string,
`extractRootDomain` equals the four-step algorithm in which step 1 reads: if
the input contains "://", keep only what stands between its first occurrence
and the next one (or the end of the input).  Steps 2 to 4 are those of the
specification. -/
theorem extractRootDomain_eq_specRootDomainAmended (s : JsString) :
    extractRootDomain s = specRootDomainAmended s := by
  unfold extractRootDomain specRootDomainAmended
  have hdot : ".".toList = ['.'] := rfl
  dsimp only
  -- step 1: the scheme
  rw [scheme_step s]
  -- step 2: the path
  rw [path_step]
  -- step 3: the labels
  rw [hdot, split_single_eq_splitOn]
  -- step 4: the last two labels
  exact join_slice_eq_specLastTwoLabels _ _

/-- Counterexample to C10 as stated: on "https://example.com://x", where
"://" occurs twice, the code returns "example.com" and the four-step algorithm
of the specification returns "example.com:". -/
theorem extractRootDomain_ne_specRootDomain_counterexample :
    extractRootDomain "https://example.com://x".toList = "example.com".toList ∧
    specRootDomain "https://example.com://x".toList = "example.com:".toList ∧
    extractRootDomain "https://example.com://x".toList
      ≠ specRootDomain "https://example.com://x".toList := by
  decide

theorem specTakeBeforeFirst_of_absent (sep s : JsString) (h : ¬ sep <:+: s) :
    specTakeBeforeFirst sep s = s := by
  induction s with
  | nil => rfl
  | cons c cs ih =>
    have hp : ¬ sep.isPrefixOf (c :: cs) = true := fun hp =>
      h ((List.isPrefixOf_iff_prefix.1 hp).isInfix)
    have hcs : ¬ sep <:+: cs := fun hcs => h (List.infix_cons hcs)
    rw [specTakeBeforeFirst, if_neg hp, ih hcs]

/-- Where the code and the specification agree: when "://" does not occur
again after its first occurrence, `extractRootDomain` is the four-step
algorithm of the specification. -/
theorem extractRootDomain_eq_specRootDomain_of_one_scheme (s : JsString)
    (h : ¬ "://".toList <:+: specDropThroughFirst "://".toList s) :
    extractRootDomain s = specRootDomain s := by
  unfold extractRootDomain specRootDomain
  have hdot : ".".toList = ['.'] := rfl
  dsimp only
  rw [scheme_step s, specTakeBeforeFirst_of_absent _ _ h, path_step, hdot,
    split_single_eq_splitOn]
  exact join_slice_eq_specLastTwoLabels _ _

/-! ## Decimal text of a window index and `parseInt` -/

theorem digitChar_toNat (d : Nat) (h : d < 10) : (Nat.digitChar d).toNat = 48 + d := by
  interval_cases d <;> rfl

/-- The digits that `Nat.toDigitsCore` puts in front of its accumulator: a
non-empty run of decimal digits whose value is the number. -/
theorem toDigitsCore_spec (fuel : Nat) : ∀ (n : Nat) (ds : List Char), n < fuel →
    ∃ l : List Char, Nat.toDigitsCore 10 fuel n ds = l ++ ds ∧ l ≠ [] ∧
      (∀ c ∈ l, 48 ≤ c.toNat ∧ c.toNat ≤ 57) ∧
      ∀ a : Nat, l.foldl (fun acc c => acc * 10 + (c.toNat - 48)) a
        = a * 10 ^ l.length + n := by
  induction fuel with
  | zero => intro n ds h; omega
  | succ fuel ih =>
    intro n ds hn
    have hd : (Nat.digitChar (n % 10)).toNat = 48 + n % 10 :=
      digitChar_toNat _ (Nat.mod_lt _ (by decide))
    unfold Nat.toDigitsCore
    by_cases h0 : n / 10 = 0
    · refine ⟨[Nat.digitChar (n % 10)], by simp [h0], by simp, ?_, ?_⟩
      · intro c hc
        simp only [List.mem_singleton] at hc
        subst hc
        omega
      · intro a
        simp only [List.foldl_cons, List.foldl_nil, List.length_singleton, pow_one, hd]
        rw [Nat.add_sub_cancel_left]
        have hdm := Nat.div_add_mod n 10
        omega
    · have hlt : n / 10 < fuel := by omega
      obtain ⟨l, hl, -, hdig, hval⟩ := ih (n / 10) (Nat.digitChar (n % 10) :: ds) hlt
      refine ⟨l ++ [Nat.digitChar (n % 10)], by simp [h0, hl], by simp, ?_, ?_⟩
      · intro c hc
        rcases List.mem_append.1 hc with hc | hc
        · exact hdig c hc
        · simp only [List.mem_singleton] at hc
          subst hc
          omega
      · intro a
        simp only [List.foldl_append, List.foldl_cons, List.foldl_nil, hval, hd,
          List.length_append, List.length_singleton, pow_succ]
        rw [Nat.add_sub_cancel_left]
        have hdm := Nat.div_add_mod n 10
        have hmul : (a * 10 ^ l.length + n / 10) * 10
            = a * (10 ^ l.length * 10) + 10 * (n / 10) := by ring
        omega

/-- The decimal text of `n`: a non-empty run of decimal digits with value `n`. -/
theorem numberToString_spec (n : Nat) :
    numberToString n ≠ [] ∧ (∀ c ∈ numberToString n, 48 ≤ c.toNat ∧ c.toNat ≤ 57) ∧
    (numberToString n).foldl (fun acc c => acc * 10 + (c.toNat - 48)) 0 = n := by
  obtain ⟨l, hl, hne, hdig, hval⟩ := toDigitsCore_spec (n + 1) n [] (Nat.lt_succ_self n)
  have : numberToString n = l := by simpa [numberToString, Nat.toDigits] using hl
  rw [this]
  exact ⟨hne, hdig, by simpa using hval 0⟩

theorem digitValue_ten_of_digit (c : Char) (h : 48 ≤ c.toNat ∧ c.toNat ≤ 57) :
    digitValue 10 c = some (c.toNat - 48) := by
  have h1 : c.toNat - 48 < 10 := by omega
  simp [digitValue, h.1, h.2, h1]

theorem isStrWhiteSpaceChar_of_digit (c : Char) (h : 48 ≤ c.toNat ∧ c.toNat ≤ 57) :
    isStrWhiteSpaceChar c = false := by
  unfold isStrWhiteSpaceChar
  simp only [Bool.or_eq_false_iff, decide_eq_false_iff_not, Bool.and_eq_false_iff,
    Bool.decide_eq_false]
  omega

/-- `parseInt` reads a non-empty run of decimal digits as its decimal value. -/
theorem parseInt_of_digits (l : JsString) (hne : l ≠ [])
    (hdig : ∀ c ∈ l, 48 ≤ c.toNat ∧ c.toNat ≤ 57) :
    parseInt (some l)
      = some ((l.foldl (fun acc c => acc * 10 + (c.toNat - 48)) 0 : Nat) : Int) := by
  cases l with
  | nil => exact absurd rfl hne
  | cons c cs =>
    have hc := hdig c (List.mem_cons_self _ _)
    have hws : isStrWhiteSpaceChar c = false := isStrWhiteSpaceChar_of_digit c hc
    have hminus : c ≠ '-' := by
      rintro rfl
      exact absurd hc.1 (by decide)
    have hplus : c ≠ '+' := by
      rintro rfl
      exact absurd hc.1 (by decide)
    have hhex : (decide (List.take 2 (c :: cs) = "0x".toList)
        || decide (List.take 2 (c :: cs) = "0X".toList)) = false := by
      cases cs with
      | nil => simp
      | cons c2 cs2 =>
        have hc2 := hdig c2 (by simp)
        have hx : c2 ≠ 'x' := by
          rintro rfl
          exact absurd hc2.2 (by decide)
        have hX : c2 ≠ 'X' := by
          rintro rfl
          exact absurd hc2.2 (by decide)
        simp [hx, hX]
    have htake : List.takeWhile (fun c => (digitValue 10 c).isSome) (c :: cs) = c :: cs := by
      rw [List.takeWhile_eq_self_iff]
      intro x hx
      rw [digitValue_ten_of_digit x (hdig x hx)]
      rfl
    have hfold : ∀ (l : List Char) (a : Nat), (∀ x ∈ l, 48 ≤ x.toNat ∧ x.toNat ≤ 57) →
        l.foldl (fun acc c => acc * 10 + (digitValue 10 c).getD 0) a
          = l.foldl (fun acc c => acc * 10 + (c.toNat - 48)) a := by
      intro l
      induction l with
      | nil => intro a _; rfl
      | cons x xs ih =>
        intro a hx
        simp only [List.foldl_cons]
        rw [digitValue_ten_of_digit x (hx x (List.mem_cons_self _ _))]
        exact ih _ (fun y hy => hx y (List.mem_cons_of_mem _ hy))
    unfold parseInt
    simp only [List.dropWhile_cons, hws, Bool.false_eq_true, if_false, List.head?_cons,
      Option.some.injEq, hminus, hplus, decide_False, Bool.or_self, hhex, htake]
    simp [hfold (c :: cs) 0 hdig]

/-- Reading back the decimal text of a window index gives the index. -/
theorem parseInt_numberToString (n : Nat) :
    parseInt (some (numberToString n)) = some (n : Int) := by
  obtain ⟨hne, hdig, hval⟩ := numberToString_spec n
  rw [parseInt_of_digits _ hne hdig, hval]

/-! ## The rate-limit table -/

theorem mapGet_mapSet_self (m : RateLimits) (key : JsString) (value : Nat) :
    mapGet (mapSet m key value) key = some value := by
  induction m with
  | nil => simp [mapSet, mapGet]
  | cons e rest ih =>
    obtain ⟨k, v⟩ := e
    by_cases h : k = key
    · simp [mapSet, mapGet, h]
    · simp [mapSet, mapGet, h, ih]

theorem mapGet_mapSet_of_ne (m : RateLimits) (key other : JsString) (value : Nat)
    (hne : other ≠ key) : mapGet (mapSet m key value) other = mapGet m other := by
  induction m with
  | nil => simp [mapSet, mapGet, Ne.symm hne]
  | cons e rest ih =>
    obtain ⟨k, v⟩ := e
    by_cases h : k = key
    · subst h
      simp [mapSet, mapGet, Ne.symm hne]
    · by_cases h2 : k = other
      · subst h2
        simp [mapSet, mapGet, h]
      · simp [mapSet, mapGet, h, h2, ih]

theorem mapGet_mapDelete_of_ne (m : RateLimits) (key other : JsString)
    (hne : other ≠ key) : mapGet (mapDelete m key) other = mapGet m other := by
  induction m with
  | nil => simp [mapDelete, mapGet]
  | cons e rest ih =>
    obtain ⟨k, v⟩ := e
    by_cases h : k = key
    · subst h
      simp [mapDelete, mapGet, Ne.symm hne]
    · by_cases h2 : k = other
      · subst h2
        simp [mapDelete, mapGet, h]
      · simp [mapDelete, mapGet, h, h2, ih]

/-- The walk of `cleanupRateLimits` over any list of entries leaves alone
every key that does not parse to a window below the cutoff. -/
theorem mapGet_cleanup_walk (cutoff : Int) (key : JsString)
    (hkept : ∀ w, parseInt ((split key "-".toList)[1]?) = some w → ¬ w < cutoff)
    (entries : List (JsString × Nat)) (m : RateLimits) :
    mapGet (entries.foldl
      (fun m entry =>
        match parseInt ((split entry.1 "-".toList)[1]?) with
        | some w => if w < cutoff then mapDelete m entry.1 else m
        | none => m) m) key = mapGet m key := by
  induction entries generalizing m with
  | nil => rfl
  | cons e rest ih =>
    rw [List.foldl_cons, ih]
    cases hp : parseInt ((split e.1 "-".toList)[1]?) with
    | none => rfl
    | some w =>
      dsimp only
      by_cases hw : w < cutoff
      · rw [if_pos hw]
        apply mapGet_mapDelete_of_ne
        rintro rfl
        exact hkept w hp hw
      · rw [if_neg hw]

/-- Cleanup leaves alone every key that does not parse to a window below the
cutoff. -/
theorem mapGet_cleanupRateLimits_of_kept (m : RateLimits) (currentWindow : Nat)
    (key : JsString)
    (hkept : ∀ w, parseInt ((split key "-".toList)[1]?) = some w →
      ¬ w < (currentWindow : Int) - 2) :
    mapGet (cleanupRateLimits m currentWindow) key = mapGet m key :=
  mapGet_cleanup_walk _ key hkept m m

/-- The key of an identity without "-" splits into the identity and the
decimal text of the window. -/
theorem split_rateKey (clientIP : JsString) (windowStart : Nat) (hid : '-' ∉ clientIP) :
    split (rateKey clientIP windowStart) "-".toList
      = [clientIP, numberToString windowStart] := by
  have hdash : "-".toList = ['-'] := rfl
  have hkey : rateKey clientIP windowStart
      = ['-'].intercalate [clientIP, numberToString windowStart] := by
    simp [rateKey, List.intercalate, hdash]
  rw [hdash, split_single_eq_splitOn, hkey]
  apply List.splitOn_intercalate
  · intro l hl
    simp only [List.mem_cons, List.mem_singleton, List.not_mem_nil, or_false] at hl
    rcases hl with rfl | rfl
    · exact hid
    · intro hmem
      have := (numberToString_spec windowStart).2.1 _ hmem
      exact absurd this.1 (by decide)
  · simp

/-- Cleanup keeps the key of an identity without "-" for every window that is
not more than 2 windows old. -/
theorem mapGet_cleanupRateLimits_recent (m : RateLimits) (clientIP : JsString)
    (currentWindow w : Nat) (hid : '-' ∉ clientIP) (hw : currentWindow ≤ w + 2) :
    mapGet (cleanupRateLimits m currentWindow) (rateKey clientIP w)
      = mapGet m (rateKey clientIP w) := by
  apply mapGet_cleanupRateLimits_of_kept
  intro v hv
  rw [split_rateKey _ _ hid] at hv
  simp only [List.getElem?_cons_succ, List.getElem?_cons_zero] at hv
  rw [parseInt_numberToString] at hv
  simp only [Option.some.injEq] at hv
  omega

/-- Cleanup at the current window keeps the current key of an identity
without "-". -/
theorem mapGet_cleanupRateLimits_rateKey (m : RateLimits) (clientIP : JsString)
    (windowStart : Nat) (hid : '-' ∉ clientIP) :
    mapGet (cleanupRateLimits m windowStart) (rateKey clientIP windowStart)
      = mapGet m (rateKey clientIP windowStart) :=
  mapGet_cleanupRateLimits_recent m clientIP windowStart windowStart hid (by omega)

/-! ## `checkRateLimit`, call by call -/

/-- A call below the limit is allowed; for an identity without "-" the count
stored for its current key is then one more than before. -/
theorem checkRateLimit_allowed (req : Request) (now : Nat) (draw : Bool)
    (rateLimits : RateLimits)
    (hcount : (mapGet rateLimits
      (rateKey (clientIP req) (now / RATE_LIMIT_WINDOW))).getD 0 < RATE_LIMIT_MAX) :
    (checkRateLimit req now draw rateLimits).1 = true ∧
    ('-' ∉ clientIP req →
      mapGet (checkRateLimit req now draw rateLimits).2
          (rateKey (clientIP req) (now / RATE_LIMIT_WINDOW))
        = some ((mapGet rateLimits
            (rateKey (clientIP req) (now / RATE_LIMIT_WINDOW))).getD 0 + 1)) := by
  unfold checkRateLimit
  dsimp only
  rw [if_neg (by omega)]
  refine ⟨rfl, fun hid => ?_⟩
  cases draw with
  | false => simp [mapGet_mapSet_self]
  | true =>
    simp only [if_true]
    rw [mapGet_cleanupRateLimits_rateKey _ _ _ hid, mapGet_mapSet_self]

/-- A call at the limit is rejected and leaves the table as it is. -/
theorem checkRateLimit_rejected (req : Request) (now : Nat) (draw : Bool)
    (rateLimits : RateLimits)
    (hcount : RATE_LIMIT_MAX ≤ (mapGet rateLimits
      (rateKey (clientIP req) (now / RATE_LIMIT_WINDOW))).getD 0) :
    checkRateLimit req now draw rateLimits = (false, rateLimits) := by
  unfold checkRateLimit
  dsimp only
  rw [if_pos hcount]

/-! ## `validateRequest`, call by call -/

/-- Once the origin and the user agent are accepted, `validateRequest` is the
rate-limit check. -/
theorem validateRequest_of_valid_headers (req : Request) (now : Nat) (draw : Bool)
    (rateLimits : RateLimits) (hO : validateOrigin req = true)
    (hU : validateUserAgent req = true) :
    validateRequest req now draw rateLimits
      = (if (checkRateLimit req now draw rateLimits).1 = true then .ok true
          else .error "Rate limit exceeded".toList,
         (checkRateLimit req now draw rateLimits).2) := by
  unfold validateRequest
  cases hR : (checkRateLimit req now draw rateLimits).1 <;> simp [hO, hU, hR]

/-- Calls in one window that stay within the limit all succeed, and each adds
one to the count of the identity (an identity without "-"). -/
theorem validateRequests_within_limit (req : Request) (hO : validateOrigin req = true)
    (hU : validateUserAgent req = true) (hid : '-' ∉ clientIP req) (w : Nat) :
    ∀ (calls : List (Nat × Bool)) (rateLimits : RateLimits),
      (mapGet rateLimits (rateKey (clientIP req) w)).getD 0 + calls.length ≤ RATE_LIMIT_MAX →
      (∀ call ∈ calls, call.1 / RATE_LIMIT_WINDOW = w) →
      (validateRequests req rateLimits calls).1 = List.replicate calls.length (.ok true) ∧
      (mapGet (validateRequests req rateLimits calls).2 (rateKey (clientIP req) w)).getD 0
        = (mapGet rateLimits (rateKey (clientIP req) w)).getD 0 + calls.length := by
  intro calls
  induction calls with
  | nil => intro rateLimits _ _; simp [validateRequests]
  | cons call calls ih =>
    intro rateLimits hroom hwin
    obtain ⟨now, draw⟩ := call
    have hnow : now / RATE_LIMIT_WINDOW = w := hwin (now, draw) (List.mem_cons_self _ _)
    have hlt : (mapGet rateLimits
        (rateKey (clientIP req) (now / RATE_LIMIT_WINDOW))).getD 0 < RATE_LIMIT_MAX := by
      rw [hnow]
      simp only [List.length_cons] at hroom
      omega
    obtain ⟨hres, hcnt⟩ := checkRateLimit_allowed req now draw rateLimits hlt
    have hcnt := hcnt hid
    rw [hnow] at hcnt
    have hstep := validateRequest_of_valid_headers req now draw rateLimits hO hU
    rw [hres] at hstep
    simp only [if_true] at hstep
    have hnext : (mapGet (checkRateLimit req now draw rateLimits).2
        (rateKey (clientIP req) w)).getD 0 + calls.length ≤ RATE_LIMIT_MAX := by
      rw [hcnt]
      simp only [List.length_cons, Option.getD_some] at hroom ⊢
      omega
    obtain ⟨ih1, ih2⟩ := ih (checkRateLimit req now draw rateLimits).2 hnext
      (fun c hc => hwin c (List.mem_cons_of_mem _ hc))
    simp only [validateRequests, hstep, ih1, ih2, hcnt, List.length_cons,
      List.replicate_succ, Option.getD_some, true_and]
    omega

/-- Claim C9, as the code has it.  For the request with Host
"proxy.example.com", Origin "https://app.example.com" and User-Agent
"Mozilla/5.0": a call from an identity with no entry in the table for the
current window returns true; and when the identity contains no "-" and has no
entry for window `w`, then for every 20 calls in window `w` and any draws,
all 20 return true and every further call in window `w`, the 21st, throws
'Rate limit exceeded'. -/
theorem validateRequest_end_to_end (req : Request)
    (hhost : req.host = some "proxy.example.com".toList)
    (horigin : req.origin = some "https://app.example.com".toList)
    (hua : req.userAgent = some "Mozilla/5.0".toList)
    (rateLimits : RateLimits) :
    (∀ (now : Nat) (draw : Bool),
      mapGet rateLimits (rateKey (clientIP req) (now / RATE_LIMIT_WINDOW)) = none →
      (validateRequest req now draw rateLimits).1 = .ok true) ∧
    (∀ (w : Nat) (calls : List (Nat × Bool)) (now : Nat) (draw : Bool),
      '-' ∉ clientIP req →
      mapGet rateLimits (rateKey (clientIP req) w) = none →
      calls.length = 20 →
      (∀ call ∈ calls, call.1 / RATE_LIMIT_WINDOW = w) →
      now / RATE_LIMIT_WINDOW = w →
      (validateRequests req rateLimits calls).1 = List.replicate 20 (.ok true) ∧
      (validateRequest req now draw (validateRequests req rateLimits calls).2).1
        = .error "Rate limit exceeded".toList) := by
  have hO : validateOrigin req = true := by
    apply (validateOrigin_eq_true_iff req).2
    exact ⟨_, hhost, by decide, Or.inl ⟨_, horigin, by decide, by decide⟩⟩
  have hU : validateUserAgent req = true := by
    simp only [validateUserAgent, hua]
    decide
  constructor
  · intro now draw hfresh
    have hlt : (mapGet rateLimits
        (rateKey (clientIP req) (now / RATE_LIMIT_WINDOW))).getD 0 < RATE_LIMIT_MAX := by
      rw [hfresh]
      decide
    rw [validateRequest_of_valid_headers req now draw rateLimits hO hU,
      (checkRateLimit_allowed req now draw rateLimits hlt).1]
    rfl
  · intro w calls now draw hid hfresh hlen hwin hnow
    obtain ⟨hres, hcnt⟩ := validateRequests_within_limit req hO hU hid w calls rateLimits
      (by rw [hfresh, hlen]; decide) hwin
    rw [hfresh, hlen] at hcnt
    rw [hlen] at hres
    refine ⟨hres, ?_⟩
    have hfull : RATE_LIMIT_MAX ≤ (mapGet (validateRequests req rateLimits calls).2
        (rateKey (clientIP req) (now / RATE_LIMIT_WINDOW))).getD 0 := by
      rw [hnow, hcnt]
      decide
    rw [validateRequest_of_valid_headers req now draw _ hO hU,
      checkRateLimit_rejected req now draw _ hfull]
    rfl

/-- Witness for C9 as amended: the client 203.0.113.7, an empty table, and 21
calls at clock 1762290000000 with the cleanup running on every call. -/
theorem validateRequest_end_to_end_witness :
    (validateRequest (browserRequest "203.0.113.7".toList) 1762290000000 true []).1
      = .ok true ∧
    (validateRequest (browserRequest "203.0.113.7".toList) 1762290000000 true
      (validateRequests (browserRequest "203.0.113.7".toList) []
        (List.replicate 20 (1762290000000, true))).2).1
      = .error "Rate limit exceeded".toList :=
  ⟨(validateRequest_end_to_end (browserRequest "203.0.113.7".toList) rfl rfl rfl []).1
      1762290000000 true rfl,
   ((validateRequest_end_to_end (browserRequest "203.0.113.7".toList) rfl rfl rfl []).2
      29371500 (List.replicate 20 (1762290000000, true)) 1762290000000 true
      (by decide) rfl rfl (by decide) (by decide)).2⟩

/-- Counterexample to C9 as stated: 21 calls that span 1 ms, twenty at clock
59999 and the 21st at clock 60000, from the client 203.0.113.7 on an empty
table with no cleanup.  The 21st call falls in the next window and returns
true. -/
theorem validateRequest_window_boundary_counterexample :
    (60000 - 59999 < 60000) ∧
    (validateRequests (browserRequest "203.0.113.7".toList) []
      (List.replicate 20 (59999, false))).1 = List.replicate 20 (.ok true) ∧
    (validateRequest (browserRequest "203.0.113.7".toList) 60000 false
      (validateRequests (browserRequest "203.0.113.7".toList) []
        (List.replicate 20 (59999, false))).2).1 = .ok true := by
  decide

/-! ## The limiter on an identity that contains "-"

`cleanupRateLimits` reads the window of a key as `key.split('-')[1]`, the
second piece of the key.  For the key "client-1-29371500" that piece is "1",
the tail of the identity, so the entry of the current window counts as old and
is deleted. -/

/-- The window that cleanup reads off the key of the identity "client-1". -/
theorem parseInt_key_of_dashed_identity :
    rateKey "client-1".toList 29371500 = "client-1-29371500".toList ∧
    parseInt ((split (rateKey "client-1".toList 29371500) "-".toList)[1]?) = some 1 := by
  decide

/-- Claim C2 at a failing input: 21 calls from the identity "client-1", all at
clock 1762290000000 (window 29371500), on an empty table, cleanup drawn on the
20th call only.  All 21 calls return true: 21 accepted calls of one identity
in one window. -/
theorem checkRateLimits_accepts_21_in_one_window :
    clientIP (browserRequest "client-1".toList) = "client-1".toList ∧
    1762290000000 / RATE_LIMIT_WINDOW = 29371500 ∧
    (checkRateLimits []
      (List.replicate 19 (browserRequest "client-1".toList, 1762290000000, false)
        ++ [(browserRequest "client-1".toList, 1762290000000, true),
            (browserRequest "client-1".toList, 1762290000000, false)])).1
      = List.replicate 21 true ∧
    accepted "client-1".toList 29371500
      (List.replicate 19 (browserRequest "client-1".toList, 1762290000000, false)
        ++ [(browserRequest "client-1".toList, 1762290000000, true),
            (browserRequest "client-1".toList, 1762290000000, false)])
      (checkRateLimits []
        (List.replicate 19 (browserRequest "client-1".toList, 1762290000000, false)
          ++ [(browserRequest "client-1".toList, 1762290000000, true),
              (browserRequest "client-1".toList, 1762290000000, false)])).1
      = 21 := by
  decide

/-- Claim C3 at a failing input: 20 calls from the identity "client-1" at
clock 1762290000000 on an empty table, cleanup drawn on the 20th.  All return
true, but after the 20th the table holds no count for the identity in that
window, and the 21st call in the same window returns true. -/
theorem checkRateLimit_count_lost_in_same_window :
    (checkRateLimits []
      (List.replicate 19 (browserRequest "client-1".toList, 1762290000000, false)
        ++ [(browserRequest "client-1".toList, 1762290000000, true)])).1
      = List.replicate 20 true ∧
    mapGet (checkRateLimits []
      (List.replicate 19 (browserRequest "client-1".toList, 1762290000000, false)
        ++ [(browserRequest "client-1".toList, 1762290000000, true)])).2
      (rateKey "client-1".toList 29371500) = none ∧
    (checkRateLimit (browserRequest "client-1".toList) 1762290000000 false
      (checkRateLimits []
        (List.replicate 19 (browserRequest "client-1".toList, 1762290000000, false)
          ++ [(browserRequest "client-1".toList, 1762290000000, true)])).2).1 = true := by
  decide

/-- Claim C8 at a failing input: the identity "client-1" makes 20 calls at
clock 1762290000000 on an empty table (no cleanup) and is rate-limited there.
Its call 60000 ms later, with cleanup drawn, returns true, but the table it
leaves holds no count for the identity in the new window 29371501. -/
theorem checkRateLimit_new_window_count_not_kept :
    mapGet (checkRateLimits []
      (List.replicate 20 (browserRequest "client-1".toList, 1762290000000, false))).2
      (rateKey "client-1".toList 29371500) = some 20 ∧
    (checkRateLimit (browserRequest "client-1".toList) 1762290000000 false
      (checkRateLimits []
        (List.replicate 20 (browserRequest "client-1".toList, 1762290000000, false))).2).1
      = false ∧
    (checkRateLimit (browserRequest "client-1".toList) (1762290000000 + 60000) true
      (checkRateLimits []
        (List.replicate 20 (browserRequest "client-1".toList, 1762290000000, false))).2).1
      = true ∧
    mapGet (checkRateLimit (browserRequest "client-1".toList) (1762290000000 + 60000) true
      (checkRateLimits []
        (List.replicate 20 (browserRequest "client-1".toList, 1762290000000, false))).2).2
      (rateKey "client-1".toList 29371501) = none := by
  decide

/-! ## The limiter on an identity without "-" -/

theorem checkRateLimits_append (rateLimits : RateLimits)
    (first rest : List (Request × Nat × Bool)) :
    checkRateLimits rateLimits (first ++ rest)
      = ((checkRateLimits rateLimits first).1
          ++ (checkRateLimits (checkRateLimits rateLimits first).2 rest).1,
         (checkRateLimits (checkRateLimits rateLimits first).2 rest).2) := by
  induction first generalizing rateLimits with
  | nil => simp [checkRateLimits]
  | cons call first ih =>
    obtain ⟨req, now, draw⟩ := call
    rw [List.cons_append, checkRateLimits, ih]
    simp only [checkRateLimits, List.cons_append]

/-- Calls of one identity without "-" in one window that stay within the limit
all return true, and each adds one to the stored count. -/
theorem checkRateLimits_within_limit (identity : JsString) (hid : '-' ∉ identity)
    (w : Nat) :
    ∀ (calls : List (Request × Nat × Bool)) (rateLimits : RateLimits),
      (∀ call ∈ calls, clientIP call.1 = identity ∧ call.2.1 / RATE_LIMIT_WINDOW = w) →
      (mapGet rateLimits (rateKey identity w)).getD 0 + calls.length ≤ RATE_LIMIT_MAX →
      (checkRateLimits rateLimits calls).1 = List.replicate calls.length true ∧
      (mapGet (checkRateLimits rateLimits calls).2 (rateKey identity w)).getD 0
        = (mapGet rateLimits (rateKey identity w)).getD 0 + calls.length := by
  intro calls
  induction calls with
  | nil => intro rateLimits _ _; simp [checkRateLimits]
  | cons call calls ih =>
    intro rateLimits hcalls hroom
    obtain ⟨req, now, draw⟩ := call
    obtain ⟨hreq, hnow⟩ := hcalls (req, now, draw) (List.mem_cons_self _ _)
    simp only at hreq hnow
    have hlt : (mapGet rateLimits
        (rateKey (clientIP req) (now / RATE_LIMIT_WINDOW))).getD 0 < RATE_LIMIT_MAX := by
      rw [hreq, hnow]
      simp only [List.length_cons] at hroom
      omega
    obtain ⟨hres, hcnt⟩ := checkRateLimit_allowed req now draw rateLimits hlt
    have hcnt := hcnt (by rw [hreq]; exact hid)
    rw [hreq, hnow] at hcnt
    have hnext : (mapGet (checkRateLimit req now draw rateLimits).2
        (rateKey identity w)).getD 0 + calls.length ≤ RATE_LIMIT_MAX := by
      rw [hcnt]
      simp only [List.length_cons, Option.getD_some] at hroom ⊢
      omega
    obtain ⟨ih1, ih2⟩ := ih (checkRateLimit req now draw rateLimits).2
      (fun c hc => hcalls c (List.mem_cons_of_mem _ hc)) hnext
    simp only [checkRateLimits, hres, ih1, ih2, hcnt, List.length_cons,
      List.replicate_succ, Option.getD_some, true_and]
    omega

/-- The 21-call property for an identity without "-": from a table with no
entry for the identity in window `w`, of 21 calls in window `w` the first 20
return true and the 21st returns false, and after the `k`-th call, for `k`
from 1 to 20, the stored count is `k`; whatever the draws are. -/
theorem checkRateLimits_twenty_then_rejected (identity : JsString) (hid : '-' ∉ identity)
    (w : Nat) (rateLimits : RateLimits) (calls : List (Request × Nat × Bool))
    (hfresh : mapGet rateLimits (rateKey identity w) = none)
    (hlen : calls.length = 21)
    (hcalls : ∀ call ∈ calls,
      clientIP call.1 = identity ∧ call.2.1 / RATE_LIMIT_WINDOW = w) :
    (checkRateLimits rateLimits calls).1 = List.replicate 20 true ++ [false] ∧
    ∀ k, 1 ≤ k → k ≤ 20 →
      mapGet (checkRateLimits rateLimits (calls.take k)).2 (rateKey identity w) = some k := by
  have hprefix : ∀ k, k ≤ 20 →
      (checkRateLimits rateLimits (calls.take k)).1 = List.replicate k true ∧
      (mapGet (checkRateLimits rateLimits (calls.take k)).2 (rateKey identity w)).getD 0
        = k := by
    intro k hk
    have hlk : (calls.take k).length = k := by
      rw [List.length_take, hlen]
      omega
    have := checkRateLimits_within_limit identity hid w (calls.take k) rateLimits
      (fun c hc => hcalls c (List.mem_of_mem_take hc))
      (by rw [hfresh, hlk]; simp only [Option.getD_none, RATE_LIMIT_MAX]; omega)
    rw [hlk, hfresh] at this
    simpa using this
  constructor
  · obtain ⟨h20, hc20⟩ := hprefix 20 (le_refl _)
    have hsplit : calls = calls.take 20 ++ calls.drop 20 := (List.take_append_drop 20 calls).symm
    have hdrop : (calls.drop 20).length = 1 := by
      rw [List.length_drop, hlen]
    obtain ⟨last, hlast⟩ := List.length_eq_one.1 hdrop
    obtain ⟨req, now, draw⟩ := last
    have hmem : (req, now, draw) ∈ calls := by
      apply List.mem_of_mem_drop (n := 20)
      rw [hlast]
      exact List.mem_singleton_self _
    obtain ⟨hreq, hnow⟩ := hcalls _ hmem
    simp only at hreq hnow
    rw [hsplit, checkRateLimits_append, hlast, h20]
    have hfull : RATE_LIMIT_MAX ≤ (mapGet (checkRateLimits rateLimits (calls.take 20)).2
        (rateKey (clientIP req) (now / RATE_LIMIT_WINDOW))).getD 0 := by
      rw [hreq, hnow, hc20]
      decide
    simp only [checkRateLimits, checkRateLimit_rejected req now draw _ hfull]
  · intro k hk1 hk20
    obtain ⟨-, hc⟩ := hprefix k hk20
    cases hget : mapGet (checkRateLimits rateLimits (calls.take k)).2 (rateKey identity w) with
    | none =>
      rw [hget] at hc
      simp only [Option.getD_none] at hc
      omega
    | some v =>
      rw [hget] at hc
      simp only [Option.getD_some] at hc
      rw [hc]

/-! ## Keys do not collide -/

theorem append_dash_cancel (a b d e : JsString) (hd : '-' ∉ d) (he : '-' ∉ e)
    (h : a ++ '-' :: d = b ++ '-' :: e) : a = b ∧ d = e := by
  induction a generalizing b with
  | nil =>
    cases b with
    | nil => simpa using h
    | cons c b =>
      simp only [List.nil_append, List.cons_append, List.cons.injEq] at h
      obtain ⟨-, rfl⟩ := h
      exact absurd (by simp) hd
  | cons x a ih =>
    cases b with
    | nil =>
      simp only [List.nil_append, List.cons_append, List.cons.injEq] at h
      obtain ⟨-, h⟩ := h
      rw [← h] at he
      exact absurd (by simp) he
    | cons c b =>
      simp only [List.cons_append, List.cons.injEq] at h
      obtain ⟨rfl, h⟩ := h
      obtain ⟨rfl, rfl⟩ := ih b h
      exact ⟨rfl, rfl⟩

theorem dash_not_mem_numberToString (n : Nat) : '-' ∉ numberToString n := by
  intro hmem
  have := (numberToString_spec n).2.1 _ hmem
  exact absurd this.1 (by decide)

theorem numberToString_injective (m n : Nat) (h : numberToString m = numberToString n) :
    m = n := by
  have hm := (numberToString_spec m).2.2
  have hn := (numberToString_spec n).2.2
  rw [h] at hm
  omega

/-- Two keys are equal only for the same identity and the same window,
whatever the identities contain. -/
theorem rateKey_injective (a b : JsString) (v w : Nat) (h : rateKey a v = rateKey b w) :
    a = b ∧ v = w := by
  have hdash : "-".toList = ['-'] := rfl
  unfold rateKey at h
  rw [hdash] at h
  simp only [List.append_assoc, List.singleton_append] at h
  obtain ⟨hab, hvw⟩ := append_dash_cancel a b _ _ (dash_not_mem_numberToString v)
    (dash_not_mem_numberToString w) h
  exact ⟨hab, numberToString_injective v w hvw⟩

/-! ## At most 20 accepted calls per identity and window -/

theorem accepted_eq_zero_of_later (identity : JsString) (w : Nat) :
    ∀ (calls : List (Request × Nat × Bool)) (results : List Bool),
      (∀ call ∈ calls, w < call.2.1 / RATE_LIMIT_WINDOW) →
      accepted identity w calls results = 0 := by
  intro calls
  induction calls with
  | nil => intro results _; cases results <;> rfl
  | cons call calls ih =>
    intro results hlater
    obtain ⟨req, now, draw⟩ := call
    cases results with
    | nil => rfl
    | cons r results =>
      have hnow : w < now / RATE_LIMIT_WINDOW := hlater (req, now, draw) (List.mem_cons_self _ _)
      have hne : ¬ (clientIP req = identity ∧ now / RATE_LIMIT_WINDOW = w ∧ r = true) := by
        rintro ⟨-, h, -⟩
        omega
      rw [accepted, if_neg hne, ih results (fun c hc => hlater c (List.mem_cons_of_mem _ hc))]

/-- One call, seen from the key of an identity without "-" in a window that
is not older than the call: the stored count grows by one exactly when the
call is of that identity and window and is allowed, and stays within the
limit. -/
theorem checkRateLimit_count_step (req : Request) (now : Nat) (draw : Bool)
    (rateLimits : RateLimits) (identity : JsString) (hid : '-' ∉ identity) (w : Nat)
    (hw : now / RATE_LIMIT_WINDOW ≤ w)
    (hc0 : (mapGet rateLimits (rateKey identity w)).getD 0 ≤ RATE_LIMIT_MAX) :
    (mapGet (checkRateLimit req now draw rateLimits).2 (rateKey identity w)).getD 0
      = (mapGet rateLimits (rateKey identity w)).getD 0
        + (if clientIP req = identity ∧ now / RATE_LIMIT_WINDOW = w
              ∧ (checkRateLimit req now draw rateLimits).1 = true then 1 else 0) ∧
    (mapGet (checkRateLimit req now draw rateLimits).2 (rateKey identity w)).getD 0
      ≤ RATE_LIMIT_MAX := by
  by_cases hfull : RATE_LIMIT_MAX ≤ (mapGet rateLimits
      (rateKey (clientIP req) (now / RATE_LIMIT_WINDOW))).getD 0
  · rw [checkRateLimit_rejected req now draw rateLimits hfull]
    simp [hc0]
  · have hres := (checkRateLimit_allowed req now draw rateLimits (by omega)).1
    have htable : mapGet (checkRateLimit req now draw rateLimits).2 (rateKey identity w)
        = mapGet (mapSet rateLimits (rateKey (clientIP req) (now / RATE_LIMIT_WINDOW))
            ((mapGet rateLimits
              (rateKey (clientIP req) (now / RATE_LIMIT_WINDOW))).getD 0 + 1))
          (rateKey identity w) := by
      unfold checkRateLimit
      dsimp only
      rw [if_neg (by omega)]
      cases draw with
      | false => simp
      | true =>
        simp only [if_true]
        exact mapGet_cleanupRateLimits_recent _ identity _ w hid (by omega)
    rw [htable, hres]
    by_cases hsame : clientIP req = identity ∧ now / RATE_LIMIT_WINDOW = w
    · obtain ⟨h1, h2⟩ := hsame
      rw [h1, h2] at hfull ⊢
      rw [mapGet_mapSet_self]
      simp only [Option.getD_some, and_self, if_true, true_and]
      omega
    · have hkey : rateKey identity w
          ≠ rateKey (clientIP req) (now / RATE_LIMIT_WINDOW) := by
        intro h
        obtain ⟨h1, h2⟩ := rateKey_injective _ _ _ _ h
        exact hsame ⟨h1.symm, h2.symm⟩
      rw [mapGet_mapSet_of_ne _ _ _ _ hkey]
      have hne : ¬ (clientIP req = identity ∧ now / RATE_LIMIT_WINDOW = w ∧ true = true) :=
        fun h => hsame ⟨h.1, h.2.1⟩
      rw [if_neg hne]
      exact ⟨rfl, hc0⟩

/-- Along a run with non-decreasing clock values, the stored count of an
identity without "-" in a window not older than the run, plus the calls of
that identity and window that the run accepts, stays within the limit. -/
theorem accepted_within_limit (identity : JsString) (hid : '-' ∉ identity) (w : Nat) :
    ∀ (calls : List (Request × Nat × Bool)) (rateLimits : RateLimits) (oldest : Nat),
      (calls.map (fun call => call.2.1)).Pairwise (fun s t => s ≤ t) →
      (∀ call ∈ calls, oldest ≤ call.2.1 / RATE_LIMIT_WINDOW) →
      oldest ≤ w →
      (mapGet rateLimits (rateKey identity w)).getD 0 ≤ RATE_LIMIT_MAX →
      (mapGet rateLimits (rateKey identity w)).getD 0
        + accepted identity w calls (checkRateLimits rateLimits calls).1
        ≤ RATE_LIMIT_MAX := by
  intro calls
  induction calls with
  | nil => intro rateLimits oldest _ _ _ hc0; simpa [accepted, checkRateLimits] using hc0
  | cons call calls ih =>
    intro rateLimits oldest hsorted hold hw hc0
    obtain ⟨req, now, draw⟩ := call
    simp only [List.map_cons, List.pairwise_cons, List.mem_map, forall_exists_index,
      and_imp] at hsorted
    obtain ⟨hfirst, hrest⟩ := hsorted
    have hlater : ∀ call ∈ calls,
        now / RATE_LIMIT_WINDOW ≤ call.2.1 / RATE_LIMIT_WINDOW := by
      intro c hc
      exact Nat.div_le_div_right (hfirst _ c hc rfl)
    simp only [checkRateLimits, accepted]
    by_cases hwnow : now / RATE_LIMIT_WINDOW ≤ w
    · obtain ⟨hstep, hle⟩ := checkRateLimit_count_step req now draw rateLimits identity hid w
        hwnow hc0
      have := ih (checkRateLimit req now draw rateLimits).2 (now / RATE_LIMIT_WINDOW)
        hrest hlater hwnow hle
      rw [hstep] at this
      omega
    · have hzero := accepted_eq_zero_of_later identity w calls
        (checkRateLimits (checkRateLimit req now draw rateLimits).2 calls).1
        (fun c hc => by have := hlater c hc; omega)
      have hne : ¬ (clientIP req = identity ∧ now / RATE_LIMIT_WINDOW = w
          ∧ (checkRateLimit req now draw rateLimits).1 = true) := by
        rintro ⟨-, h, -⟩
        omega
      rw [hzero, if_neg hne]
      omega

/-- The limit invariant for identities without "-": in every run from the
empty table with non-decreasing clock values, whatever the identities of the
other calls and the draws, at most 20 calls of the identity in any one window
return true. -/
theorem accepted_le_max_of_plain_identity (identity : JsString) (hid : '-' ∉ identity)
    (w : Nat) (calls : List (Request × Nat × Bool))
    (hsorted : (calls.map (fun call => call.2.1)).Pairwise (fun s t => s ≤ t)) :
    accepted identity w calls (checkRateLimits [] calls).1 ≤ RATE_LIMIT_MAX := by
  have := accepted_within_limit identity hid w calls [] 0 hsorted
    (fun _ _ => Nat.zero_le _) (Nat.zero_le _) (by simp [mapGet])
  simpa [mapGet] using this

/-! ## Keys of a reachable table, and the next window -/

theorem mem_mapSet (m : RateLimits) (key : JsString) (value : Nat) (e : JsString × Nat)
    (h : e ∈ mapSet m key value) : e ∈ m ∨ e = (key, value) := by
  induction m with
  | nil => simpa [mapSet] using h
  | cons x rest ih =>
    obtain ⟨k, v⟩ := x
    by_cases hk : k = key
    · subst hk
      simp only [mapSet, if_true, List.mem_cons] at h
      rcases h with h | h
      · exact Or.inr h
      · exact Or.inl (List.mem_cons_of_mem _ h)
    · simp only [mapSet, hk, if_false, List.mem_cons] at h
      rcases h with h | h
      · exact Or.inl (h ▸ List.mem_cons_self _ _)
      · rcases ih h with h | h
        · exact Or.inl (List.mem_cons_of_mem _ h)
        · exact Or.inr h

theorem mem_mapDelete (m : RateLimits) (key : JsString) (e : JsString × Nat)
    (h : e ∈ mapDelete m key) : e ∈ m := by
  induction m with
  | nil => exact h
  | cons x rest ih =>
    obtain ⟨k, v⟩ := x
    by_cases hk : k = key
    · simp only [mapDelete, hk, if_true] at h
      exact List.mem_cons_of_mem _ h
    · simp only [mapDelete, hk, if_false, List.mem_cons] at h
      rcases h with h | h
      · exact h ▸ List.mem_cons_self _ _
      · exact List.mem_cons_of_mem _ (ih h)

theorem mem_cleanup_walk (cutoff : Int) (e : JsString × Nat)
    (entries : List (JsString × Nat)) (m : RateLimits)
    (h : e ∈ entries.foldl
      (fun m entry =>
        match parseInt ((split entry.1 "-".toList)[1]?) with
        | some w => if w < cutoff then mapDelete m entry.1 else m
        | none => m) m) : e ∈ m := by
  induction entries generalizing m with
  | nil => exact h
  | cons x rest ih =>
    rw [List.foldl_cons] at h
    have h := ih _ h
    cases hp : parseInt ((split x.1 "-".toList)[1]?) with
    | none =>
      rw [hp] at h
      exact h
    | some w =>
      rw [hp] at h
      dsimp only at h
      by_cases hw : w < cutoff
      · rw [if_pos hw] at h
        exact mem_mapDelete _ _ _ h
      · rw [if_neg hw] at h
        exact h

/-- Cleanup only removes entries. -/
theorem mem_cleanupRateLimits (m : RateLimits) (currentWindow : Nat) (e : JsString × Nat)
    (h : e ∈ cleanupRateLimits m currentWindow) : e ∈ m :=
  mem_cleanup_walk _ e m m h

theorem mapGet_eq_none_of_absent (m : RateLimits) (key : JsString)
    (h : ∀ e ∈ m, e.1 ≠ key) : mapGet m key = none := by
  induction m with
  | nil => rfl
  | cons x rest ih =>
    obtain ⟨k, v⟩ := x
    have hk : k ≠ key := h (k, v) (List.mem_cons_self _ _)
    simp only [mapGet, hk, if_false]
    exact ih (fun e he => h e (List.mem_cons_of_mem _ he))

/-- One call keeps every key of the table a key of a window up to `bound`,
when the call itself is in a window up to `bound`. -/
theorem keys_bounded_step (req : Request) (now : Nat) (draw : Bool)
    (rateLimits : RateLimits) (bound : Nat)
    (hkeys : ∀ e ∈ rateLimits, ∃ a v, e.1 = rateKey a v ∧ v ≤ bound)
    (hnow : now / RATE_LIMIT_WINDOW ≤ bound) :
    ∀ e ∈ (checkRateLimit req now draw rateLimits).2,
      ∃ a v, e.1 = rateKey a v ∧ v ≤ bound := by
  intro e he
  unfold checkRateLimit at he
  dsimp only at he
  split_ifs at he with hfull hdraw
  · exact hkeys e he
  · rcases mem_mapSet _ _ _ _ (mem_cleanupRateLimits _ _ _ he) with h | h
    · exact hkeys e h
    · exact ⟨_, _, by rw [h], hnow⟩
  · rcases mem_mapSet _ _ _ _ he with h | h
    · exact hkeys e h
    · exact ⟨_, _, by rw [h], hnow⟩

/-- A run of calls at clock values up to `t`, from the empty table, leaves
only keys of windows up to the window of `t`. -/
theorem keys_bounded_run (t : Nat) :
    ∀ (calls : List (Request × Nat × Bool)) (rateLimits : RateLimits),
      (∀ e ∈ rateLimits, ∃ a v, e.1 = rateKey a v ∧ v ≤ t / RATE_LIMIT_WINDOW) →
      (∀ call ∈ calls, call.2.1 ≤ t) →
      ∀ e ∈ (checkRateLimits rateLimits calls).2,
        ∃ a v, e.1 = rateKey a v ∧ v ≤ t / RATE_LIMIT_WINDOW := by
  intro calls
  induction calls with
  | nil => intro rateLimits hkeys _; simpa [checkRateLimits] using hkeys
  | cons call calls ih =>
    intro rateLimits hkeys hclock
    obtain ⟨req, now, draw⟩ := call
    simp only [checkRateLimits]
    apply ih
    · exact keys_bounded_step req now draw rateLimits _ hkeys
        (Nat.div_le_div_right (hclock (req, now, draw) (List.mem_cons_self _ _)))
    · exact fun c hc => hclock c (List.mem_cons_of_mem _ hc)

/-- After the window boundary: in every table reached from the empty one by
calls at clock values up to `t`, a call at `t + d` with `d` at least one
window returns true, for every identity; and it leaves count 1 for the new
window when no cleanup is drawn or the identity contains no "-". -/
theorem checkRateLimit_after_window_advance (calls : List (Request × Nat × Bool))
    (t d : Nat) (hclock : ∀ call ∈ calls, call.2.1 ≤ t) (hd : RATE_LIMIT_WINDOW ≤ d)
    (req : Request) (draw : Bool) :
    (checkRateLimit req (t + d) draw (checkRateLimits [] calls).2).1 = true ∧
    ((draw = false ∨ '-' ∉ clientIP req) →
      mapGet (checkRateLimit req (t + d) draw (checkRateLimits [] calls).2).2
        (rateKey (clientIP req) ((t + d) / RATE_LIMIT_WINDOW)) = some 1) := by
  have hkeys := keys_bounded_run t calls [] (by simp) hclock
  have hlater : t / RATE_LIMIT_WINDOW < (t + d) / RATE_LIMIT_WINDOW := by
    unfold RATE_LIMIT_WINDOW at hd ⊢
    omega
  have hfresh : mapGet (checkRateLimits [] calls).2
      (rateKey (clientIP req) ((t + d) / RATE_LIMIT_WINDOW)) = none := by
    apply mapGet_eq_none_of_absent
    intro e he hkey
    obtain ⟨a, v, hav, hv⟩ := hkeys e he
    rw [hav] at hkey
    have := (rateKey_injective _ _ _ _ hkey).2
    omega
  have hlt : (mapGet (checkRateLimits [] calls).2
      (rateKey (clientIP req) ((t + d) / RATE_LIMIT_WINDOW))).getD 0 < RATE_LIMIT_MAX := by
    rw [hfresh]
    decide
  obtain ⟨hres, hcnt⟩ := checkRateLimit_allowed req (t + d) draw _ hlt
  refine ⟨hres, ?_⟩
  rintro (hdraw | hid)
  · subst hdraw
    unfold checkRateLimit
    dsimp only
    rw [if_neg (by omega), hfresh]
    simp [mapGet_mapSet_self]
  · rw [hcnt hid, hfresh]
    rfl

/-! ## The port suffix -/

/-- Claim C12, as the code has it: the port suffix is not stripped, and
`extractRootDomain("proxy.example.com:8080")` returns "example.com:8080", the
last two of the labels "proxy", "example" and "com:8080". -/
theorem extractRootDomain_keeps_port :
    split "proxy.example.com:8080".toList ".".toList
      = ["proxy".toList, "example".toList, "com:8080".toList] ∧
    extractRootDomain "proxy.example.com:8080".toList = "example.com:8080".toList := by
  decide

/-- Counterexample to C12 as stated: `extractRootDomain("proxy.example.com:8080")`
is not "com:8080". -/
theorem extractRootDomain_port_counterexample :
    extractRootDomain "proxy.example.com:8080".toList ≠ "com:8080".toList := by
  decide

/-! ## The Referer fallback -/

/-- Claim C16, as the code has it.  For every request with a non-empty Host
header whose Origin header is absent or has another root domain than the Host,
and whose Referer header is non-empty with the root domain of the Host,
`validateOrigin` returns true.  For every request with a Host header where
neither a present Origin nor a present Referer has the root domain of the
Host, `validateOrigin` returns false; so it does for Host
"api-proxy.ygna.blog" with Origin "https://evil.com" and no Referer. -/
theorem validateOrigin_referer_fallback :
    (∀ (req : Request) (host referer : JsString),
      req.host = some host → host ≠ [] →
      (req.origin = none ∨
        ∃ o, req.origin = some o ∧ extractRootDomain o ≠ extractRootDomain host) →
      req.referer = some referer → referer ≠ [] →
      extractRootDomain referer = extractRootDomain host →
      validateOrigin req = true) ∧
    (∀ (req : Request) (host : JsString),
      req.host = some host →
      (∀ o, req.origin = some o → extractRootDomain o ≠ extractRootDomain host) →
      (∀ r, req.referer = some r → extractRootDomain r ≠ extractRootDomain host) →
      validateOrigin req = false) ∧
    (∀ req : Request,
      req.host = some "api-proxy.ygna.blog".toList →
      req.origin = some "https://evil.com".toList → req.referer = none →
      validateOrigin req = false) := by
  have hsecond : ∀ (req : Request) (host : JsString),
      req.host = some host →
      (∀ o, req.origin = some o → extractRootDomain o ≠ extractRootDomain host) →
      (∀ r, req.referer = some r → extractRootDomain r ≠ extractRootDomain host) →
      validateOrigin req = false := by
    intro req host hh ho hr
    cases hv : validateOrigin req with
    | false => rfl
    | true =>
      obtain ⟨h, hh', -, hor⟩ := (validateOrigin_eq_true_iff req).1 hv
      rw [hh] at hh'
      obtain rfl : host = h := Option.some.inj hh'
      rcases hor with ⟨o, hoo, -, heq⟩ | ⟨r, hrr, -, heq⟩
      · exact absurd heq (ho o hoo)
      · exact absurd heq (hr r hrr)
  refine ⟨?_, hsecond, ?_⟩
  · intro req host referer hh hhne _ hr hrne heq
    exact (validateOrigin_eq_true_iff req).2
      ⟨host, hh, hhne, Or.inr ⟨referer, hr, hrne, heq⟩⟩
  · intro req hh ho hr
    apply hsecond req _ hh
    · intro o hoo
      rw [ho] at hoo
      obtain rfl := Option.some.inj hoo
      decide
    · intro r hrr
      rw [hr] at hrr
      exact absurd hrr (by simp)

/-- Counterexample to C16 as stated: Host and Referer are both present and
empty, Origin is absent; the two root domains are equal (both empty) and
`validateOrigin` returns false. -/
theorem validateOrigin_empty_referer_counterexample :
    extractRootDomain ([] : JsString) = extractRootDomain ([] : JsString) ∧
    validateOrigin
      { method := "GET".toList, origin := none, referer := some [],
        host := some [], userAgent := some "Mozilla/5.0".toList,
        xForwardedFor := none, xRealIp := none, remoteAddress := none,
        query := none } = false := by
  decide

/-- Witness for C16 as amended: Host "api-proxy.ygna.blog", Origin
"https://evil.com" and a Referer on "realtime-translator.ygna.blog". -/
theorem validateOrigin_referer_fallback_witness :
    validateOrigin
      { method := "GET".toList, origin := some "https://evil.com".toList,
        referer := some "https://realtime-translator.ygna.blog/page".toList,
        host := some "api-proxy.ygna.blog".toList, userAgent := none,
        xForwardedFor := none, xRealIp := none, remoteAddress := none,
        query := none } = true :=
  validateOrigin_referer_fallback.1 _ "api-proxy.ygna.blog".toList
    "https://realtime-translator.ygna.blog/page".toList rfl (by decide)
    (Or.inr ⟨"https://evil.com".toList, rfl, by decide⟩) rfl (by decide) (by decide)

/-! ## Buckets and stored counts -/

/-- Claim C19: the key `identity + "-" + decimal(window)` is injective on
pairs (identity, window), for every identity string (also one that contains
"-" or digits) and every window index; so a count stored for one pair is
never the count read or overwritten for another pair. -/
theorem rateKey_buckets_never_collide :
    (∀ (a b : JsString) (v w : Nat), rateKey a v = rateKey b w ↔ (a = b ∧ v = w)) ∧
    (∀ (m : RateLimits) (a b : JsString) (v w count : Nat), (a, v) ≠ (b, w) →
      mapGet (mapSet m (rateKey a v) count) (rateKey b w) = mapGet m (rateKey b w)) ∧
    (∀ (m : RateLimits) (a b : JsString) (v w : Nat), (a, v) ≠ (b, w) →
      mapGet (mapDelete m (rateKey a v)) (rateKey b w) = mapGet m (rateKey b w)) := by
  have hne : ∀ (a b : JsString) (v w : Nat), (a, v) ≠ (b, w) →
      rateKey b w ≠ rateKey a v := by
    intro a b v w hpair hkey
    obtain ⟨h1, h2⟩ := rateKey_injective _ _ _ _ hkey
    exact hpair (by rw [h1, h2])
  refine ⟨?_, ?_, ?_⟩
  · intro a b v w
    constructor
    · exact rateKey_injective a b v w
    · rintro ⟨rfl, rfl⟩
      rfl
  · intro m a b v w count hpair
    exact mapGet_mapSet_of_ne m _ _ count (hne a b v w hpair)
  · intro m a b v w hpair
    exact mapGet_mapDelete_of_ne m _ _ (hne a b v w hpair)

/-- Witness for C19: in window 5 the identities "10-0" and "10" have the keys
"10-0-5" and "10-5", and a count stored for the first is not read for the
second. -/
theorem rateKey_buckets_never_collide_witness :
    rateKey "10-0".toList 5 = "10-0-5".toList ∧
    rateKey "10".toList 5 = "10-5".toList ∧
    mapGet (mapSet [] (rateKey "10-0".toList 5) 7) (rateKey "10".toList 5) = none :=
  ⟨by decide, by decide,
    rateKey_buckets_never_collide.2.1 [] "10-0".toList "10".toList 5 5 7 (by decide)⟩

/-- One call keeps every stored count between 1 and `RATE_LIMIT_MAX`. -/
theorem counts_in_range_step (req : Request) (now : Nat) (draw : Bool)
    (rateLimits : RateLimits)
    (h : ∀ e ∈ rateLimits, 1 ≤ e.2 ∧ e.2 ≤ RATE_LIMIT_MAX) :
    ∀ e ∈ (checkRateLimit req now draw rateLimits).2, 1 ≤ e.2 ∧ e.2 ≤ RATE_LIMIT_MAX := by
  intro e he
  unfold checkRateLimit at he
  dsimp only at he
  split_ifs at he with hfull hdraw
  · exact h e he
  · rcases mem_mapSet _ _ _ _ (mem_cleanupRateLimits _ _ _ he) with hm | hm
    · exact h e hm
    · rw [hm]
      dsimp only
      omega
  · rcases mem_mapSet _ _ _ _ he with hm | hm
    · exact h e hm
    · rw [hm]
      dsimp only
      omega

/-- Claim C20: in every table reachable from the empty table by a sequence of
`checkRateLimit` calls, whatever the identities, clock values and draws, every
stored count is between 1 and 20; no entry holds 0 or more than
`RATE_LIMIT_MAX`. -/
theorem reachable_counts_between_1_and_20 (calls : List (Request × Nat × Bool)) :
    ∀ e ∈ (checkRateLimits [] calls).2, 1 ≤ e.2 ∧ e.2 ≤ 20 := by
  have hrun : ∀ (calls : List (Request × Nat × Bool)) (rateLimits : RateLimits),
      (∀ e ∈ rateLimits, 1 ≤ e.2 ∧ e.2 ≤ RATE_LIMIT_MAX) →
      ∀ e ∈ (checkRateLimits rateLimits calls).2, 1 ≤ e.2 ∧ e.2 ≤ RATE_LIMIT_MAX := by
    intro calls
    induction calls with
    | nil => intro rateLimits h; simpa [checkRateLimits] using h
    | cons call calls ih =>
      intro rateLimits h
      obtain ⟨req, now, draw⟩ := call
      simp only [checkRateLimits]
      exact ih _ (counts_in_range_step req now draw rateLimits h)
  exact hrun calls [] (by simp)

/-- Witness for C20: after three calls of the client 203.0.113.7 at clock
1762290000000 the table holds the count 3 for it, which lies between 1 and
20. -/
theorem reachable_counts_between_1_and_20_witness :
    ("203.0.113.7-29371500".toList, 3) ∈ (checkRateLimits []
      (List.replicate 3 (browserRequest "203.0.113.7".toList, 1762290000000, false))).2 ∧
    (1 ≤ 3 ∧ 3 ≤ 20) :=
  ⟨by decide,
   reachable_counts_between_1_and_20
     (List.replicate 3 (browserRequest "203.0.113.7".toList, 1762290000000, false))
     ("203.0.113.7-29371500".toList, 3) (by decide)⟩

/-! ## Idempotence of the root domain -/

/-- Every piece of `splitOnP` is made of elements of the list that do not
satisfy the predicate. -/
theorem splitOnP_pieces (p : Char → Bool) (xs : List Char) :
    ∀ l ∈ xs.splitOnP p, ∀ x ∈ l, x ∈ xs ∧ p x = false := by
  induction xs with
  | nil =>
    intro l hl x hx
    rw [List.splitOnP_nil] at hl
    simp only [List.mem_singleton] at hl
    subst hl
    exact absurd hx (List.not_mem_nil x)
  | cons c cs ih =>
    intro l hl x hx
    rw [List.splitOnP_cons] at hl
    by_cases hc : p c = true
    · rw [if_pos hc] at hl
      rcases List.mem_cons.1 hl with rfl | hl
      · exact absurd hx (List.not_mem_nil x)
      · obtain ⟨h1, h2⟩ := ih l hl x hx
        exact ⟨List.mem_cons_of_mem _ h1, h2⟩
    · rw [if_neg hc] at hl
      cases hs : List.splitOnP p cs with
      | nil => exact absurd hs (List.splitOnP_ne_nil _ _)
      | cons q qs =>
        rw [hs, List.modifyHead_cons] at hl
        rcases List.mem_cons.1 hl with rfl | hl
        · rcases List.mem_cons.1 hx with rfl | hx
          · exact ⟨List.mem_cons_self _ _, by simpa using hc⟩
          · obtain ⟨h1, h2⟩ := ih q (by rw [hs]; exact List.mem_cons_self _ _) x hx
            exact ⟨List.mem_cons_of_mem _ h1, h2⟩
        · obtain ⟨h1, h2⟩ := ih l (by rw [hs]; exact List.mem_cons_of_mem _ hl) x hx
          exact ⟨List.mem_cons_of_mem _ h1, h2⟩

/-- On an input without "/" the code is steps 3 and 4 alone. -/
theorem extractRootDomain_of_no_slash (r : JsString) (hr : '/' ∉ r) :
    extractRootDomain r = specLastTwoLabels (r.splitOn '.') r := by
  have hscheme : ¬ "://".toList <:+: r := by
    intro h
    exact hr (h.subset (by decide))
  have htake : r.takeWhile (fun c => c != '/') = r := by
    rw [List.takeWhile_eq_self_iff]
    intro x hx
    have : x ≠ '/' := fun h => hr (h ▸ hx)
    simpa using this
  have hdot : ".".toList = ['.'] := rfl
  unfold extractRootDomain
  dsimp only
  rw [scheme_step r, if_neg hscheme, path_step, htake, hdot, split_single_eq_splitOn]
  exact join_slice_eq_specLastTwoLabels _ _

/-- Steps 3 and 4 on a hostname without "/": the result has no "/", has at
most two labels, and steps 3 and 4 leave it as it is. -/
theorem specLastTwoLabels_fixed (h : JsString) (hh : '/' ∉ h) :
    '/' ∉ specLastTwoLabels (h.splitOn '.') h ∧
    ((specLastTwoLabels (h.splitOn '.') h).splitOn '.').length ≤ 2 ∧
    specLastTwoLabels ((specLastTwoLabels (h.splitOn '.') h).splitOn '.')
        (specLastTwoLabels (h.splitOn '.') h)
      = specLastTwoLabels (h.splitOn '.') h := by
  have hpieces : ∀ l ∈ h.splitOn '.', '.' ∉ l ∧ '/' ∉ l := by
    intro l hl
    constructor
    · intro hmem
      have := (splitOnP_pieces (fun x => x == '.') h l hl '.' hmem).2
      simp at this
    · intro hmem
      exact hh (splitOnP_pieces (fun x => x == '.') h l hl '/' hmem).1
  have hjoin : ['.'].intercalate (h.splitOn '.') = h := List.intercalate_splitOn h '.'
  have hdot : ".".toList = ['.'] := rfl
  unfold specLastTwoLabels
  rcases hrev : (h.splitOn '.').reverse with _ | ⟨last, _ | ⟨prev, more⟩⟩
  · have : h.splitOn '.' = [] := by simpa using hrev
    exact absurd this (List.splitOnP_ne_nil _ _)
  · have hone : h.splitOn '.' = [last] := by
      have := congrArg List.reverse hrev
      simpa using this
    have hlast : last = h := by
      rw [hone] at hjoin
      simpa [List.intercalate] using hjoin
    subst hlast
    dsimp only
    rw [hone]
    exact ⟨hh, by simp, rfl⟩
  · have hparts : h.splitOn '.' = more.reverse ++ [prev, last] := by
      have := congrArg List.reverse hrev
      simpa using this
    have hprev := hpieces prev (by rw [hparts]; simp)
    have hlast := hpieces last (by rw [hparts]; simp)
    have hr : prev ++ ".".toList ++ last = ['.'].intercalate [prev, last] := by
      simp [List.intercalate, hdot]
    have hsplit : (prev ++ ".".toList ++ last).splitOn '.' = [prev, last] := by
      rw [hr]
      apply List.splitOn_intercalate
      · intro l hl
        simp only [List.mem_cons, List.mem_singleton, List.not_mem_nil, or_false] at hl
        rcases hl with rfl | rfl
        · exact hprev.1
        · exact hlast.1
      · simp
    dsimp only
    rw [hsplit]
    refine ⟨?_, by simp, rfl⟩
    intro hmem
    rw [hdot] at hmem
    simp only [List.append_assoc, List.singleton_append, List.mem_append,
      List.mem_cons] at hmem
    rcases hmem with hm | hm | hm
    · exact hprev.2 hm
    · exact absurd hm (by decide)
    · exact hlast.2 hm

/-- The hostname that steps 1 and 2 of the code leave has no "/". -/
theorem extractRootDomain_steps (s : JsString) :
    ∃ h : JsString, '/' ∉ h ∧ extractRootDomain s = specLastTwoLabels (h.splitOn '.') h := by
  have hdot : ".".toList = ['.'] := rfl
  refine ⟨(if "://".toList <:+: s then
      specTakeBeforeFirst "://".toList (specDropThroughFirst "://".toList s)
      else s).takeWhile (fun c => c != '/'), ?_, ?_⟩
  · intro hmem
    have := List.mem_takeWhile_imp hmem
    simp at this
  · unfold extractRootDomain
    dsimp only
    rw [scheme_step s, path_step, hdot, split_single_eq_splitOn]
    exact join_slice_eq_specLastTwoLabels _ _

/-- Claim C18: `extractRootDomain` is idempotent.  For every string `s` the
result contains no "/" (so no "://"), has at most two dot-separated labels,
and a second application changes nothing:
`extractRootDomain(extractRootDomain(s)) = extractRootDomain(s)`. -/
theorem extractRootDomain_idempotent (s : JsString) :
    extractRootDomain (extractRootDomain s) = extractRootDomain s ∧
    '/' ∉ extractRootDomain s ∧
    includes (extractRootDomain s) "://".toList = false ∧
    (split (extractRootDomain s) ".".toList).length ≤ 2 := by
  obtain ⟨h, hh, hs⟩ := extractRootDomain_steps s
  obtain ⟨hslash, hlen, hfix⟩ := specLastTwoLabels_fixed h hh
  have hdot : ".".toList = ['.'] := rfl
  rw [hs]
  refine ⟨?_, hslash, ?_, ?_⟩
  · rw [extractRootDomain_of_no_slash _ hslash]
    exact hfix
  · cases hinc : includes (specLastTwoLabels (h.splitOn '.') h) "://".toList with
    | false => rfl
    | true =>
      have := (includes_iff_isInfix _ _).1 hinc
      exact absurd (this.subset (by decide)) hslash
  · rw [hdot, split_single_eq_splitOn]
    exact hlen

/-! ## URLs and bare hosts -/

/-- After a scheme without "://", step 1 of the specification drops exactly
the scheme and the "://" that follows it. -/
theorem specDropThroughFirst_scheme (scheme rest : JsString)
    (hscheme : ¬ "://".toList <:+: scheme) :
    specDropThroughFirst "://".toList (scheme ++ "://".toList ++ rest) = rest := by
  have hsep : "://".toList = [':', '/', '/'] := rfl
  rw [hsep] at hscheme ⊢
  induction scheme with
  | nil => simp [specDropThroughFirst, List.isPrefixOf]
  | cons c cs ih =>
    have hcs : ¬ [':', '/', '/'] <:+: cs := fun h => hscheme (List.infix_cons h)
    have hno : List.isPrefixOf [':', '/', '/'] (c :: cs ++ [':', '/', '/'] ++ rest) = false := by
      rcases cs with _ | ⟨d, _ | ⟨e, cs'⟩⟩
      · simp [List.isPrefixOf]
      · simp [List.isPrefixOf]
      · cases hp : List.isPrefixOf [':', '/', '/'] (c :: d :: e :: cs' ++ [':', '/', '/'] ++ rest) with
        | false => rfl
        | true =>
          exfalso
          apply hscheme
          simp only [List.cons_append, List.isPrefixOf, Bool.and_eq_true, beq_iff_eq,
            Bool.and_true] at hp
          obtain ⟨rfl, rfl, rfl⟩ := hp
          exact ⟨[], cs', by simp⟩
    have hunfold : specDropThroughFirst [':', '/', '/'] (c :: cs ++ [':', '/', '/'] ++ rest)
        = specDropThroughFirst [':', '/', '/'] (cs ++ [':', '/', '/'] ++ rest) := by
      show specDropThroughFirst [':', '/', '/'] (c :: (cs ++ [':', '/', '/'] ++ rest)) = _
      rw [specDropThroughFirst, if_neg]
      rw [Bool.not_eq_true]
      exact hno
    rw [hunfold]
    exact ih hcs

/-- Steps 1 and 2 on `host + "/" + path`, for a host without "/" that does not
end in ":" right before a path that starts with "/": what is left is the
host. -/
theorem host_before_path (host path : JsString) (hhost : '/' ∉ host)
    (hport : ¬ (host.getLast? = some ':' ∧ path.head? = some '/')) :
    (specTakeBeforeFirst "://".toList (host ++ "/".toList ++ path)).takeWhile
      (fun c => c != '/') = host := by
  have hsep : "://".toList = [':', '/', '/'] := rfl
  have hslash : "/".toList = ['/'] := rfl
  rw [hsep, hslash]
  induction host with
  | nil => simp [specTakeBeforeFirst, List.isPrefixOf]
  | cons c cs ih =>
    have hc : c ≠ '/' := fun h => hhost (h ▸ List.mem_cons_self _ _)
    have hcs : '/' ∉ cs := fun h => hhost (List.mem_cons_of_mem _ h)
    have hport' : ¬ (cs.getLast? = some ':' ∧ path.head? = some '/') := by
      rintro ⟨h1, h2⟩
      apply hport
      refine ⟨?_, h2⟩
      cases cs with
      | nil => simp at h1
      | cons d ds => simpa [List.getLast?_cons_cons] using h1
    have hno : List.isPrefixOf [':', '/', '/'] (c :: cs ++ ['/'] ++ path) = false := by
      cases hp : List.isPrefixOf [':', '/', '/'] (c :: cs ++ ['/'] ++ path) with
      | false => rfl
      | true =>
        exfalso
        cases cs with
        | nil =>
          cases path with
          | nil => simp [List.isPrefixOf] at hp
          | cons q qs =>
            simp only [List.cons_append, List.nil_append, List.isPrefixOf, Bool.and_eq_true,
              beq_iff_eq, Bool.and_true] at hp
            obtain ⟨rfl, -, rfl⟩ := hp
            exact hport ⟨rfl, rfl⟩
        | cons d ds =>
          simp only [List.cons_append, List.isPrefixOf, Bool.and_eq_true, beq_iff_eq] at hp
          obtain ⟨-, rfl, -⟩ := hp
          exact hcs (List.mem_cons_self _ _)
    have hunfold : specTakeBeforeFirst [':', '/', '/'] (c :: cs ++ ['/'] ++ path)
        = c :: specTakeBeforeFirst [':', '/', '/'] (cs ++ ['/'] ++ path) := by
      show specTakeBeforeFirst [':', '/', '/'] (c :: (cs ++ ['/'] ++ path)) = _
      rw [specTakeBeforeFirst, if_neg]
      rw [Bool.not_eq_true]
      exact hno
    rw [hunfold, List.takeWhile_cons, if_pos (by simpa using hc), ih hcs hport']

theorem specLastTwoLabels_of_no_dot (host : JsString) (h : '.' ∉ host) :
    specLastTwoLabels (host.splitOn '.') host = host := by
  have hsingle : host.splitOn '.' = [host] := by
    rw [List.splitOn]
    apply List.splitOnP_eq_single
    intro x hx
    have : x ≠ '.' := fun hxd => h (hxd ▸ hx)
    simpa using this
  rw [hsingle]
  rfl

/-- Claim C11, as the code has it.  For every URL `scheme + "://" + host + "/"
+ path` whose scheme contains no "://", whose host contains no "/" (so no
"://") and does not end in ":" right before a path that starts with "/", and
for every bare host without "/": `extractRootDomain` returns the last two
dot-separated labels of the host joined by "." when the host has at least two
labels, and the host itself when it has no dot.  The four named inputs give
"example.com", "example.com", "localhost" and "ygna.blog". -/
theorem extractRootDomain_of_url_or_host :
    (∀ scheme host path : JsString,
      ¬ "://".toList <:+: scheme → '/' ∉ host →
      ¬ (host.getLast? = some ':' ∧ path.head? = some '/') →
      extractRootDomain (scheme ++ "://".toList ++ host ++ "/".toList ++ path)
        = specLastTwoLabels (host.splitOn '.') host) ∧
    (∀ host : JsString, '/' ∉ host →
      extractRootDomain host = specLastTwoLabels (host.splitOn '.') host) ∧
    (∀ host : JsString, '.' ∉ host → specLastTwoLabels (host.splitOn '.') host = host) ∧
    extractRootDomain "https://api.sub.example.com/path".toList = "example.com".toList ∧
    extractRootDomain "example.com".toList = "example.com".toList ∧
    extractRootDomain "localhost".toList = "localhost".toList ∧
    extractRootDomain "api-proxy.ygna.blog".toList = "ygna.blog".toList := by
  refine ⟨?_, extractRootDomain_of_no_slash, specLastTwoLabels_of_no_dot,
    by decide, by decide, by decide, by decide⟩
  intro scheme host path hscheme hhost hport
  have hdot : ".".toList = ['.'] := rfl
  have hurl : scheme ++ "://".toList ++ host ++ "/".toList ++ path
      = scheme ++ "://".toList ++ (host ++ "/".toList ++ path) := by
    simp only [List.append_assoc]
  have hin : "://".toList <:+: scheme ++ "://".toList ++ (host ++ "/".toList ++ path) :=
    ⟨scheme, host ++ "/".toList ++ path, rfl⟩
  unfold extractRootDomain
  dsimp only
  -- step 1: the scheme goes, the rest up to the next "://" stays
  rw [hurl, scheme_step, if_pos hin, specDropThroughFirst_scheme _ _ hscheme]
  -- step 2: the path goes
  rw [path_step, host_before_path host path hhost hport]
  -- steps 3 and 4: the labels of the host
  rw [hdot, split_single_eq_splitOn]
  exact join_slice_eq_specLastTwoLabels _ _

/-- Witness for C11 as amended: the URL "https://api.sub.example.com/path",
with scheme "https", host "api.sub.example.com" and path "path". -/
theorem extractRootDomain_of_url_or_host_witness :
    extractRootDomain ("https".toList ++ "://".toList ++ "api.sub.example.com".toList
        ++ "/".toList ++ "path".toList)
      = specLastTwoLabels ("api.sub.example.com".toList.splitOn '.')
          "api.sub.example.com".toList :=
  extractRootDomain_of_url_or_host.1 "https".toList "api.sub.example.com".toList
    "path".toList (by decide) (by decide) (by decide)

/-- Counterexample to C11 as stated: the URL "https://localhost://x" is
"https" + "://" + "localhost:" + "/" + "/x"; its host "localhost:" contains no
"/", no "://" and no dot, yet the code returns "localhost", not the host. -/
theorem extractRootDomain_url_counterexample :
    "https".toList ++ "://".toList ++ "localhost:".toList ++ "/".toList ++ "/x".toList
      = "https://localhost://x".toList ∧
    '/' ∉ "localhost:".toList ∧ ¬ "://".toList <:+: "localhost:".toList ∧
    '.' ∉ "localhost:".toList ∧
    extractRootDomain "https://localhost://x".toList = "localhost".toList ∧
    extractRootDomain "https://localhost://x".toList ≠ "localhost:".toList := by
  decide

/-! ## What cleanup deletes -/

theorem mapDelete_eq_filter (m : RateLimits) (key : JsString)
    (hnd : (m.map Prod.fst).Nodup) :
    mapDelete m key = m.filter (fun e => decide (e.1 ≠ key)) := by
  induction m with
  | nil => rfl
  | cons x rest ih =>
    obtain ⟨k, v⟩ := x
    simp only [List.map_cons, List.nodup_cons] at hnd
    obtain ⟨hk, hrest⟩ := hnd
    by_cases h : k = key
    · subst h
      have hb : decide (k ≠ k) = false := by simp
      simp only [mapDelete, if_true, List.filter_cons, hb, Bool.false_eq_true, if_false]
      symm
      rw [List.filter_eq_self]
      intro e he
      have : e.1 ≠ k := fun h => hk (h ▸ List.mem_map_of_mem Prod.fst he)
      simpa using this
    · have hb : decide (k ≠ key) = true := by simpa using h
      simp only [mapDelete, h, if_false, List.filter_cons, hb, if_true, ih hrest]

theorem nodup_keys_filter (m : RateLimits) (p : JsString × Nat → Bool)
    (hnd : (m.map Prod.fst).Nodup) : ((m.filter p).map Prod.fst).Nodup :=
  hnd.sublist ((List.filter_sublist m).map Prod.fst)

/-- The walk of `cleanupRateLimits` over a list of entries, on a table that
holds each key once: it filters out the old keys that the walk visits. -/
theorem cleanup_walk_eq_filter (cutoff : Int) (entries : List (JsString × Nat)) :
    ∀ m : RateLimits, (m.map Prod.fst).Nodup →
      entries.foldl
        (fun m entry =>
          match parseInt ((split entry.1 "-".toList)[1]?) with
          | some w => if w < cutoff then mapDelete m entry.1 else m
          | none => m) m
        = m.filter (fun e =>
            !(keyIsOld cutoff e.1 && decide (e.1 ∈ entries.map Prod.fst))) := by
  induction entries with
  | nil =>
    intro m _
    simp
  | cons x rest ih =>
    intro m hnd
    rw [List.foldl_cons]
    by_cases hold : keyIsOld cutoff x.1 = true
    · have hstep : (match parseInt ((split x.1 "-".toList)[1]?) with
          | some w => if w < cutoff then mapDelete m x.1 else m
          | none => m) = mapDelete m x.1 := by
        unfold keyIsOld at hold
        cases hp : parseInt ((split x.1 "-".toList)[1]?) with
        | none => rw [hp] at hold; exact absurd hold (by simp)
        | some w =>
          rw [hp] at hold
          dsimp only at hold ⊢
          rw [if_pos (of_decide_eq_true hold)]
      rw [hstep, mapDelete_eq_filter m x.1 hnd, ih _ (nodup_keys_filter m _ hnd),
        List.filter_filter]
      apply List.filter_congr
      intro e _
      by_cases hex : e.1 = x.1
      · rw [hex]
        simp [hold]
      · have hb : (e.1 == x.1) = false := by
          rw [beq_eq_false_iff_ne]
          exact hex
        simp [hex, hb]
    · have hold' : keyIsOld cutoff x.1 = false := by simpa using hold
      have hstep : (match parseInt ((split x.1 "-".toList)[1]?) with
          | some w => if w < cutoff then mapDelete m x.1 else m
          | none => m) = m := by
        unfold keyIsOld at hold'
        cases hp : parseInt ((split x.1 "-".toList)[1]?) with
        | none => rfl
        | some w =>
          rw [hp] at hold'
          dsimp only at hold' ⊢
          rw [if_neg (of_decide_eq_false hold')]
      rw [hstep, ih m hnd]
      apply List.filter_congr
      intro e _
      by_cases hex : e.1 = x.1
      · rw [hex]
        simp [hold']
      · have hb : (e.1 == x.1) = false := by
          rw [beq_eq_false_iff_ne]
          exact hex
        simp [hex, hb]

/-- On a table that holds each key once, cleanup keeps exactly the entries
whose key does not pass the test `parseInt(key.split('-')[1]) < cutoff`. -/
theorem cleanupRateLimits_eq_filter (m : RateLimits) (currentWindow : Nat)
    (hnd : (m.map Prod.fst).Nodup) :
    cleanupRateLimits m currentWindow
      = m.filter (fun e => !keyIsOld ((currentWindow : Int) - 2) e.1) := by
  unfold cleanupRateLimits
  dsimp only
  rw [cleanup_walk_eq_filter _ m m hnd]
  apply List.filter_congr
  intro e he
  have : e.1 ∈ m.map Prod.fst := List.mem_map_of_mem Prod.fst he
  simp [this]

/-- The test of cleanup on the key of an identity without "-": the window of
the key is more than 2 windows older than the current one. -/
theorem keyIsOld_rateKey (identity : JsString) (hid : '-' ∉ identity)
    (currentWindow w : Nat) :
    keyIsOld ((currentWindow : Int) - 2) (rateKey identity w) = decide (w + 2 < currentWindow) := by
  unfold keyIsOld
  rw [split_rateKey _ _ hid]
  simp only [List.getElem?_cons_succ, List.getElem?_cons_zero]
  rw [parseInt_numberToString]
  dsimp only
  by_cases h : w + 2 < currentWindow
  · rw [decide_eq_true h, decide_eq_true (by omega)]
  · rw [decide_eq_false h, decide_eq_false (by omega)]

/-- Cleanup on identities without "-": in a table that holds each key once,
`cleanupRateLimits(w)` deletes exactly the entries of windows below `w - 2`;
every other entry stays with its count. -/
theorem mem_cleanupRateLimits_plain_iff (m : RateLimits) (currentWindow : Nat)
    (hnd : (m.map Prod.fst).Nodup) (identity : JsString) (hid : '-' ∉ identity)
    (w count : Nat) :
    (rateKey identity w, count) ∈ cleanupRateLimits m currentWindow ↔
      ((rateKey identity w, count) ∈ m ∧ currentWindow ≤ w + 2) := by
  rw [cleanupRateLimits_eq_filter m currentWindow hnd, List.mem_filter,
    keyIsOld_rateKey identity hid]
  simp only [Bool.not_eq_true', decide_eq_false_iff_not, not_lt]

/-! ## Reachable tables hold each key once -/

theorem keys_mapSet (m : RateLimits) (key : JsString) (value : Nat) :
    (mapSet m key value).map Prod.fst
      = if key ∈ m.map Prod.fst then m.map Prod.fst else m.map Prod.fst ++ [key] := by
  induction m with
  | nil => simp [mapSet]
  | cons x rest ih =>
    obtain ⟨k, v⟩ := x
    by_cases h : k = key
    · subst h
      simp [mapSet]
    · have hne : ¬ key = k := fun h' => h h'.symm
      by_cases hmem : key ∈ rest.map Prod.fst
      · rw [if_pos hmem] at ih
        simp only [mapSet, h, if_false, List.map_cons, ih, List.mem_cons, hne, false_or,
          hmem, if_true]
      · rw [if_neg hmem] at ih
        simp only [mapSet, h, if_false, List.map_cons, ih, List.mem_cons, hne, false_or,
          hmem, List.cons_append]

theorem nodup_keys_mapSet (m : RateLimits) (key : JsString) (value : Nat)
    (hnd : (m.map Prod.fst).Nodup) : ((mapSet m key value).map Prod.fst).Nodup := by
  rw [keys_mapSet]
  by_cases hmem : key ∈ m.map Prod.fst
  · rw [if_pos hmem]
    exact hnd
  · rw [if_neg hmem]
    exact List.Nodup.append hnd (List.nodup_singleton key)
      (by simpa [List.disjoint_singleton] using hmem)

theorem nodup_keys_step (req : Request) (now : Nat) (draw : Bool) (rateLimits : RateLimits)
    (hnd : (rateLimits.map Prod.fst).Nodup) :
    ((checkRateLimit req now draw rateLimits).2.map Prod.fst).Nodup := by
  unfold checkRateLimit
  dsimp only
  split_ifs with hfull hdraw
  · exact hnd
  · rw [cleanupRateLimits_eq_filter _ _ (nodup_keys_mapSet _ _ _ hnd)]
    exact nodup_keys_filter _ _ (nodup_keys_mapSet _ _ _ hnd)
  · exact nodup_keys_mapSet _ _ _ hnd

/-- Every table reached from the empty one holds each key once. -/
theorem nodup_keys_run (calls : List (Request × Nat × Bool)) :
    ∀ rateLimits : RateLimits, (rateLimits.map Prod.fst).Nodup →
      ((checkRateLimits rateLimits calls).2.map Prod.fst).Nodup := by
  induction calls with
  | nil => intro rateLimits h; simpa [checkRateLimits] using h
  | cons call calls ih =>
    intro rateLimits h
    obtain ⟨req, now, draw⟩ := call
    simp only [checkRateLimits]
    exact ih _ (nodup_keys_step req now draw rateLimits h)

/-! ## When cleanup runs -/

/-- Cleanup on an allowed call: in a table reached from the empty one, after
an allowed call with the draw below 0.1 no entry of an identity without "-"
is more than 2 windows older than the current window. -/
theorem checkRateLimit_cleanup_on_allowed_call (calls : List (Request × Nat × Bool))
    (req : Request) (now : Nat)
    (hallowed : (checkRateLimit req now true (checkRateLimits [] calls).2).1 = true)
    (identity : JsString) (hid : '-' ∉ identity) (w count : Nat)
    (hmem : (rateKey identity w, count)
      ∈ (checkRateLimit req now true (checkRateLimits [] calls).2).2) :
    now / RATE_LIMIT_WINDOW ≤ w + 2 := by
  have hnd := nodup_keys_run calls [] (by simp)
  have hlt : ¬ RATE_LIMIT_MAX ≤ (mapGet (checkRateLimits [] calls).2
      (rateKey (clientIP req) (now / RATE_LIMIT_WINDOW))).getD 0 := by
    intro hge
    rw [checkRateLimit_rejected req now true _ hge] at hallowed
    exact absurd hallowed (by simp)
  unfold checkRateLimit at hmem
  dsimp only at hmem
  rw [if_neg hlt, if_pos rfl] at hmem
  exact ((mem_cleanupRateLimits_plain_iff _ _ (nodup_keys_mapSet _ _ _ hnd)
    identity hid w count).1 hmem).2

set_option maxRecDepth 16384 in
/-- Claim C14 at a failing input.  The client 198.51.100.1 calls once at clock
60000 (window 1); the client 203.0.113.7 then calls 20 times at clock
1762290000000 (window 29371500).  Its 21st call there, with the draw below
0.1, returns false and leaves the table as it is: the entry of window 1 is
still there.  Also on an allowed call with the draw below 0.1 the entry
"my-host-1" of the identity "my-host" and window 1 stays. -/
theorem checkRateLimit_rejected_call_skips_cleanup :
    (checkRateLimit (browserRequest "203.0.113.7".toList) 1762290000000 true
      (checkRateLimits []
        ((browserRequest "198.51.100.1".toList, 60000, false)
          :: List.replicate 20 (browserRequest "203.0.113.7".toList, 1762290000000, false))).2).1
      = false ∧
    mapGet (checkRateLimit (browserRequest "203.0.113.7".toList) 1762290000000 true
      (checkRateLimits []
        ((browserRequest "198.51.100.1".toList, 60000, false)
          :: List.replicate 20 (browserRequest "203.0.113.7".toList, 1762290000000, false))).2).2
      (rateKey "198.51.100.1".toList 1) = some 1 ∧
    1 + 2 < 1762290000000 / RATE_LIMIT_WINDOW ∧
    (checkRateLimit (browserRequest "203.0.113.7".toList) 1762290000000 true
      (checkRateLimits [] [(browserRequest "my-host".toList, 60000, false)]).2)
      = (true, [("my-host-1".toList, 1), ("203.0.113.7-29371500".toList, 1)]) := by
  refine ⟨by decide, by decide, by decide, by decide⟩

/-- Claim C15 at a failing input.  Five calls of the identity "client-1" at
clock 1762290000000 leave the table with the one entry "client-1-29371500"
of the current window 29371500, and `cleanupRateLimits(29371500)` deletes it.
The entry "my-host-1" of the identity "my-host" and window 1 is kept by
`cleanupRateLimits(29371500)`. -/
theorem cleanupRateLimits_misreads_dashed_identity :
    (checkRateLimits []
      (List.replicate 5 (browserRequest "client-1".toList, 1762290000000, false))).2
      = [("client-1-29371500".toList, 5)] ∧
    cleanupRateLimits [("client-1-29371500".toList, 5)] 29371500 = [] ∧
    (checkRateLimits [] [(browserRequest "my-host".toList, 60000, false)]).2
      = [("my-host-1".toList, 1)] ∧
    cleanupRateLimits [("my-host-1".toList, 1)] 29371500 = [("my-host-1".toList, 1)] := by
  decide

/-! ## The effect of `validateRequest` on the table -/

/-- What `validateRequest` does to the table.  A failed origin or user-agent
check leaves it as it is; it changes only when both checks passed; and on
success the count of the identity in the current window is one more than
before, when no cleanup is drawn or the identity contains no "-". -/
theorem validateRequest_table_effect (req : Request) (now : Nat) (draw : Bool)
    (rateLimits : RateLimits) :
    (((validateRequest req now draw rateLimits).1 = .error "Invalid origin".toList ∨
      (validateRequest req now draw rateLimits).1 = .error "Invalid user agent".toList) →
      (validateRequest req now draw rateLimits).2 = rateLimits) ∧
    ((validateRequest req now draw rateLimits).2 ≠ rateLimits →
      validateOrigin req = true ∧ validateUserAgent req = true) ∧
    ((validateRequest req now draw rateLimits).1 = .ok true →
      (draw = false ∨ '-' ∉ clientIP req) →
      mapGet (validateRequest req now draw rateLimits).2
          (rateKey (clientIP req) (now / RATE_LIMIT_WINDOW))
        = some ((mapGet rateLimits
            (rateKey (clientIP req) (now / RATE_LIMIT_WINDOW))).getD 0 + 1)) := by
  cases hO : validateOrigin req with
  | false =>
    have hv : validateRequest req now draw rateLimits
        = (.error "Invalid origin".toList, rateLimits) := by
      simp [validateRequest, hO]
    rw [hv]
    exact ⟨fun _ => rfl, fun h => absurd rfl h, fun h => absurd h (by simp)⟩
  | true =>
    cases hU : validateUserAgent req with
    | false =>
      have hv : validateRequest req now draw rateLimits
          = (.error "Invalid user agent".toList, rateLimits) := by
        simp [validateRequest, hO, hU]
      rw [hv]
      exact ⟨fun _ => rfl, fun h => absurd rfl h, fun h => absurd h (by simp)⟩
    | true =>
      rw [validateRequest_of_valid_headers req now draw rateLimits hO hU]
      refine ⟨?_, fun _ => ⟨rfl, rfl⟩, ?_⟩
      · intro h
        exfalso
        cases hR : (checkRateLimit req now draw rateLimits).1 <;>
          rw [hR] at h <;>
          simp only [Bool.false_eq_true, if_false, if_true] at h <;>
          rcases h with h | h <;> exact absurd h (by decide)
      · intro hok hcase
        dsimp only at hok ⊢
        have hR : (checkRateLimit req now draw rateLimits).1 = true := by
          cases hR : (checkRateLimit req now draw rateLimits).1 with
          | true => rfl
          | false =>
            rw [hR] at hok
            exact absurd hok (by decide)
        have hlt : (mapGet rateLimits
            (rateKey (clientIP req) (now / RATE_LIMIT_WINDOW))).getD 0 < RATE_LIMIT_MAX := by
          by_contra hge
          rw [checkRateLimit_rejected req now draw rateLimits (by omega)] at hR
          exact absurd hR (by simp)
        rcases hcase with hdraw | hid
        · subst hdraw
          unfold checkRateLimit
          dsimp only
          rw [if_neg (by omega)]
          simp [mapGet_mapSet_self]
        · exact (checkRateLimit_allowed req now draw rateLimits hlt).2 hid

/-- Claim C17 at a failing input: the end-to-end request from the identity
"client-1" on the empty table at clock 1762290000000, with the draw below 0.1.
`validateRequest` returns true and the table after the call is empty again:
the count of the identity in the current window has not gone from 0 to 1. -/
theorem validateRequest_success_count_not_kept :
    validateRequest (browserRequest "client-1".toList) 1762290000000 true []
      = (.ok true, []) ∧
    mapGet (validateRequest (browserRequest "client-1".toList) 1762290000000 true []).2
      (rateKey "client-1".toList (1762290000000 / RATE_LIMIT_WINDOW)) = none := by
  decide

/-! ## Errors and status codes in the two handlers -/

theorem validateRequest_error_cases (req : Request) (now : Nat) (draw : Bool)
    (rateLimits : RateLimits) (msg : JsString)
    (h : (validateRequest req now draw rateLimits).1 = .error msg) :
    msg = "Invalid origin".toList ∨ msg = "Invalid user agent".toList ∨
      msg = "Rate limit exceeded".toList := by
  unfold validateRequest at h
  cases hO : validateOrigin req <;> cases hU : validateUserAgent req <;>
    cases hR : (checkRateLimit req now draw rateLimits).1 <;>
    simp only [hO, hU, hR, Bool.not_false, Bool.not_true, if_true, if_false,
      Bool.false_eq_true, Except.error.injEq] at h <;>
    first
      | exact Or.inl h.symm
      | exact Or.inr (Or.inl h.symm)
      | exact Or.inr (Or.inr h.symm)
      | exact absurd h (by simp)

theorem keysHandler_status_of_throw (env : Env) (req : Request) (now : Nat) (draw : Bool)
    (stamp : Nat) (rateLimits : RateLimits) (hm : req.method = "GET".toList)
    (msg : JsString) (h : (keysTry env req now draw stamp rateLimits).1 = .error msg) :
    (keysHandler env req now draw stamp rateLimits).1.status = catchStatus msg := by
  have h1 : ¬ req.method = "OPTIONS".toList := by rw [hm]; decide
  have h2 : ¬ req.method ≠ "GET".toList := fun hne => hne hm
  unfold keysHandler catchStatus
  dsimp only
  rw [if_neg h1, if_neg h2]
  rcases hT : keysTry env req now draw stamp rateLimits with ⟨r, t⟩
  rw [hT] at h
  dsimp only at h
  subst h
  dsimp only
  split_ifs <;> rfl

theorem translateHandler_status_of_throw (env : Env) (fetch : FetchRequest → Upstream)
    (req : Request) (body : Option TranslateBody) (now : Nat) (draw : Bool)
    (rateLimits : RateLimits) (hm : req.method = "POST".toList) (msg : JsString)
    (h : (translateTry env fetch req body now draw rateLimits).1 = .error msg) :
    (translateHandler env fetch req body now draw rateLimits).1.status = catchStatus msg := by
  have h1 : ¬ req.method = "OPTIONS".toList := by rw [hm]; decide
  have h2 : ¬ req.method ≠ "POST".toList := fun hne => hne hm
  unfold translateHandler catchStatus
  dsimp only
  rw [if_neg h1, if_neg h2]
  rcases hT : translateTry env fetch req body now draw rateLimits with ⟨r, t⟩
  rw [hT] at h
  dsimp only at h
  subst h
  dsimp only
  split_ifs <;> rfl

theorem keysTry_of_validation_error (env : Env) (req : Request) (now : Nat) (draw : Bool)
    (stamp : Nat) (rateLimits : RateLimits) (msg : JsString)
    (h : (validateRequest req now draw rateLimits).1 = .error msg) :
    (keysTry env req now draw stamp rateLimits).1 = .error msg := by
  unfold keysTry
  rcases hV : validateRequest req now draw rateLimits with ⟨v, t⟩
  rw [hV] at h
  dsimp only at h
  subst h
  rfl

theorem translateTry_of_validation_error (env : Env) (fetch : FetchRequest → Upstream)
    (req : Request) (body : Option TranslateBody) (now : Nat) (draw : Bool)
    (rateLimits : RateLimits) (msg : JsString)
    (h : (validateRequest req now draw rateLimits).1 = .error msg) :
    (translateTry env fetch req body now draw rateLimits).1 = .error msg := by
  unfold translateTry
  rcases hV : validateRequest req now draw rateLimits with ⟨v, t⟩
  rw [hV] at h
  dsimp only at h
  subst h
  rfl

/-- In the key-lookup handler the only error thrown after a passed validation
is the one of reading `service` off a missing `req.query`. -/
theorem keysTry_other_error (env : Env) (req : Request) (now : Nat) (draw : Bool)
    (stamp : Nat) (rateLimits : RateLimits) (msg : JsString) (b : Bool)
    (hv : (validateRequest req now draw rateLimits).1 = .ok b)
    (h : (keysTry env req now draw stamp rateLimits).1 = .error msg) :
    msg = "Cannot destructure property 'service' of 'req.query' as it is undefined.".toList := by
  unfold keysTry at h
  rcases hV : validateRequest req now draw rateLimits with ⟨v, t⟩
  rw [hV] at hv h
  dsimp only at hv
  subst hv
  dsimp only at h
  cases hq : req.query with
  | none =>
    rw [hq] at h
    dsimp only at h
    exact (Except.error.inj h).symm
  | some service =>
    rw [hq] at h
    dsimp only at h
    split_ifs at h

/-- Claim C13, as the code has it.  In both handlers, with the allowed method
(GET for the key lookup, POST for translate): when `validateRequest` throws
'Invalid origin' or 'Invalid user agent' the status is 403, when it throws
'Rate limit exceeded' the status is 429, and a failed validation never gives
200.  Any other error thrown inside the key-lookup handler gives 500; any
other error thrown inside the translate handler gives 500 when its message
contains none of "Rate limit", "Invalid origin" and "Invalid user agent". -/
theorem handlers_error_status :
    (∀ (env : Env) (req : Request) (now : Nat) (draw : Bool) (stamp : Nat)
        (rateLimits : RateLimits), req.method = "GET".toList →
      (∀ msg, (validateRequest req now draw rateLimits).1 = .error msg →
        (keysHandler env req now draw stamp rateLimits).1.status ≠ 200 ∧
        ((msg = "Invalid origin".toList ∨ msg = "Invalid user agent".toList) →
          (keysHandler env req now draw stamp rateLimits).1.status = 403) ∧
        (msg = "Rate limit exceeded".toList →
          (keysHandler env req now draw stamp rateLimits).1.status = 429)) ∧
      (∀ msg b, (validateRequest req now draw rateLimits).1 = .ok b →
        (keysTry env req now draw stamp rateLimits).1 = .error msg →
        (keysHandler env req now draw stamp rateLimits).1.status = 500)) ∧
    (∀ (env : Env) (fetch : FetchRequest → Upstream) (req : Request)
        (body : Option TranslateBody) (now : Nat) (draw : Bool) (rateLimits : RateLimits),
        req.method = "POST".toList →
      (∀ msg, (validateRequest req now draw rateLimits).1 = .error msg →
        (translateHandler env fetch req body now draw rateLimits).1.status ≠ 200 ∧
        ((msg = "Invalid origin".toList ∨ msg = "Invalid user agent".toList) →
          (translateHandler env fetch req body now draw rateLimits).1.status = 403) ∧
        (msg = "Rate limit exceeded".toList →
          (translateHandler env fetch req body now draw rateLimits).1.status = 429)) ∧
      (∀ msg b, (validateRequest req now draw rateLimits).1 = .ok b →
        (translateTry env fetch req body now draw rateLimits).1 = .error msg →
        includes msg "Rate limit".toList = false →
        includes msg "Invalid origin".toList = false →
        includes msg "Invalid user agent".toList = false →
        (translateHandler env fetch req body now draw rateLimits).1.status = 500)) := by
  -- the status that the `catch` block gives to the three validation errors
  have hIO : catchStatus "Invalid origin".toList = 403 := by decide
  have hUA : catchStatus "Invalid user agent".toList = 403 := by decide
  have hRL : catchStatus "Rate limit exceeded".toList = 429 := by decide
  have hvalidation : ∀ (status : Nat) (msg : JsString),
      (msg = "Invalid origin".toList ∨ msg = "Invalid user agent".toList ∨
        msg = "Rate limit exceeded".toList) →
      status = catchStatus msg →
      status ≠ 200 ∧
      ((msg = "Invalid origin".toList ∨ msg = "Invalid user agent".toList) → status = 403) ∧
      (msg = "Rate limit exceeded".toList → status = 429) := by
    intro status msg hcases hstatus
    refine ⟨?_, ?_, ?_⟩
    · rcases hcases with rfl | rfl | rfl
      · rw [hstatus, hIO]; decide
      · rw [hstatus, hUA]; decide
      · rw [hstatus, hRL]; decide
    · rintro (rfl | rfl)
      · rw [hstatus, hIO]
      · rw [hstatus, hUA]
    · rintro rfl
      rw [hstatus, hRL]
  constructor
  · intro env req now draw stamp rateLimits hm
    constructor
    · intro msg hv
      exact hvalidation _ msg (validateRequest_error_cases req now draw rateLimits msg hv)
        (keysHandler_status_of_throw env req now draw stamp rateLimits hm msg
          (keysTry_of_validation_error env req now draw stamp rateLimits msg hv))
    · intro msg b hv hthrow
      rw [keysHandler_status_of_throw env req now draw stamp rateLimits hm msg hthrow,
        keysTry_other_error env req now draw stamp rateLimits msg b hv hthrow]
      decide
  · intro env fetch req body now draw rateLimits hm
    constructor
    · intro msg hv
      exact hvalidation _ msg (validateRequest_error_cases req now draw rateLimits msg hv)
        (translateHandler_status_of_throw env fetch req body now draw rateLimits hm msg
          (translateTry_of_validation_error env fetch req body now draw rateLimits msg hv))
    · intro msg b _ hthrow h1 h2 h3
      rw [translateHandler_status_of_throw env fetch req body now draw rateLimits hm msg
        hthrow]
      unfold catchStatus
      rw [h1, h2, h3]
      rfl

/-- Witness for C13 as amended: a POST of the end-to-end request with a valid
body, with `DEEPL_API_KEY` configured and `fetch` rejecting with "fetch
failed": the status is 500. -/
theorem handlers_error_status_witness :
    (translateHandler
      (fun name => if name = "DEEPL_API_KEY".toList then some "secret".toList else none)
      (fun _ => .rejected "fetch failed".toList)
      { browserRequest "203.0.113.7".toList with method := "POST".toList }
      (some { text := some ["Hello".toList], target_lang := some "DE".toList,
              source_lang := none })
      1762290000000 false []).1.status = 500 :=
  (handlers_error_status.2
    (fun name => if name = "DEEPL_API_KEY".toList then some "secret".toList else none)
    (fun _ => .rejected "fetch failed".toList)
    { browserRequest "203.0.113.7".toList with method := "POST".toList }
    (some { text := some ["Hello".toList], target_lang := some "DE".toList,
            source_lang := none })
    1762290000000 false [] rfl).2 "fetch failed".toList true
    (by decide) (by decide) (by decide) (by decide) (by decide)

/-- Counterexample to C13 as stated: a POST of the end-to-end request with a
valid body; validation passes, the upstream API answers 200 with the text
"Rate limit exceeded", and reading it as JSON throws a `SyntaxError` whose
message quotes that text.  The error is none of the three validation errors,
and the status is 429, not 500. -/
theorem translateHandler_other_error_counterexample :
    (validateRequest { browserRequest "203.0.113.7".toList with method := "POST".toList }
      1762290000000 false []).1 = .ok true ∧
    (translateTry
      (fun name => if name = "DEEPL_API_KEY".toList then some "secret".toList else none)
      (fun _ => .response 200 (.error
        "Unexpected token 'R', \"Rate limit exceeded\" is not valid JSON".toList))
      { browserRequest "203.0.113.7".toList with method := "POST".toList }
      (some { text := some ["Hello".toList], target_lang := some "DE".toList,
              source_lang := none })
      1762290000000 false []).1
      = .error "Unexpected token 'R', \"Rate limit exceeded\" is not valid JSON".toList ∧
    (translateHandler
      (fun name => if name = "DEEPL_API_KEY".toList then some "secret".toList else none)
      (fun _ => .response 200 (.error
        "Unexpected token 'R', \"Rate limit exceeded\" is not valid JSON".toList))
      { browserRequest "203.0.113.7".toList with method := "POST".toList }
      (some { text := some ["Hello".toList], target_lang := some "DE".toList,
              source_lang := none })
      1762290000000 false []).1.status = 429 := by
  decide

end ApiProxy
